import Mathlib

/-!
Verification of the result-collection and report-rendering pipeline of the
vacation-planner driver scripts (src/vp9.js, src/vp8.js).

The embedding models JavaScript values by the inductive type `JsValue`
(strings, integer numbers, booleans, null, arrays, objects-as-ordered-field
lists), the results table by an association list in insertion order, and the
render loop of both scripts by string-building functions that reproduce the
template literals of the source character for character.  JSON.stringify with
a two-space gap and JSON.parse are modelled by `jppV` and `jsonParse`
respectively, following the ECMA serialization algorithm on this value
fragment (numbers are modelled as integers, which is how they occur in the
configuration data and results of these scripts).
-/

set_option maxRecDepth 10000

namespace VacationReport

/-- A JavaScript value as it occurs in the results table of the scripts:
a string, an (integer) number, a boolean, null, an array, or an object whose
fields are kept in insertion order. -/
inductive JsValue where
  | str (s : String)
  | num (n : Int)
  | boolean (b : Bool)
  | null
  | arr (elems : List JsValue)
  | obj (fields : List (String × JsValue))

/-- Association-list lookup, modelling the object indexing `results[jobName]`
(absent key gives `undefined`, modelled as `none`). -/
def jsGet (table : List (String × JsValue)) (key : String) : Option JsValue :=
  match table with
  | [] => none
  | (k, v) :: rest => if k = key then some v else jsGet rest key

/-- The keys of a results object in insertion order, modelling
`Object.keys(results)`. -/
def keysOf (table : List (String × JsValue)) : List String :=
  table.map Prod.fst

/-- JavaScript truthiness of a value: empty strings, 0, false and null are
falsy; every object and array (including the error sentinel) is truthy. -/
def truthy : JsValue → Bool
  | .str s => !s.isEmpty
  | .num n => decide (n ≠ 0)
  | .boolean b => b
  | .null => false
  | .arr _ => true
  | .obj _ => true

/-- Whether `typeof v === \x27object\x27` holds: objects, arrays and null. -/
def typeofObject : JsValue → Bool
  | .obj _ => true
  | .arr _ => true
  | .null => true
  | _ => false

/-- Truthiness of `results[name]` (`undefined` for an absent key is falsy). -/
def entryTruthy (results : List (String × JsValue)) (name : String) : Bool :=
  match jsGet results name with
  | some v => truthy v
  | none => false

/-- The decimal digit character for `n < 10`. -/
def digitChar (n : Nat) : Char := Char.ofNat (48 + n)

/-- Decimal digit expansion by structural recursion on a fuel bound that
dominates the number of digits. -/
def natDigitsGo : Nat → Nat → List Char
  | 0, n => [digitChar n]
  | fuel + 1, n =>
      if n < 10 then [digitChar n]
      else natDigitsGo fuel (n / 10) ++ [digitChar (n % 10)]

/-- Decimal digits of a natural number, most significant first, as produced
by JavaScript number-to-string conversion for whole numbers. -/
def natDigits (n : Nat) : List Char := natDigitsGo n n

/-- String form of a natural number. -/
def natToString (n : Nat) : String := ⟨natDigits n⟩

/-- JavaScript string conversion of an integer number. -/
def jsNumToString (i : Int) : String :=
  if i < 0 then "-" ++ natToString i.natAbs else natToString i.natAbs

/-- The length of a string in UTF-16 code units, the unit of the JavaScript
`.length` property used in the length annotations of the report. -/
def utf16Len (s : String) : Nat :=
  (s.data.map fun c => if c.toNat < 0x10000 then 1 else 2).sum

mutual

/-- Comma-joined element strings for JavaScript array-to-string coercion. -/
def jsArrJoin : List JsValue → String
  | [] => ""
  | [x] => jsElemStr x
  | x :: y :: xs => jsElemStr x ++ "," ++ jsArrJoin (y :: xs)

/-- One array element under array-to-string coercion; null prints empty. -/
def jsElemStr : JsValue → String
  | .str s => s
  | .num n => jsNumToString n
  | .boolean b => cond b "true" "false"
  | .null => ""
  | .obj _ => "[object Object]"
  | .arr xs => jsArrJoin xs

end

/-- JavaScript string coercion (template-literal interpolation) of a value.
Arrays join their elements with commas, null elements becoming empty; plain
objects print as [object Object]. -/
def jsToString : JsValue → String
  | .str s => s
  | .num n => jsNumToString n
  | .boolean b => cond b "true" "false"
  | .null => "null"
  | .obj _ => "[object Object]"
  | .arr xs => jsArrJoin xs

/-- The hexadecimal digit character for `n < 16`, lowercase. -/
def hexDigitChar (n : Nat) : Char :=
  if n < 10 then Char.ofNat (48 + n) else Char.ofNat (87 + n)

/-- The escape sequence JSON.stringify uses for one character of a string:
quote and backslash are backslash-escaped, the named control characters get
their short escapes, other control characters get a \u00XX escape, and
everything else passes through. -/
def jsonEscapeChar (c : Char) : List Char :=
  if c = '"' then ['\\', '"']
  else if c = '\\' then ['\\', '\\']
  else if c = '\x08' then ['\\', 'b']
  else if c = '\x09' then ['\\', 't']
  else if c = '\x0a' then ['\\', 'n']
  else if c = '\x0c' then ['\\', 'f']
  else if c = '\x0d' then ['\\', 'r']
  else if c.toNat < 0x20 then
    ['\\', 'u', '0', '0', hexDigitChar (c.toNat / 16), hexDigitChar (c.toNat % 16)]
  else [c]

/-- The JSON string literal for `s`: quoted and escaped. -/
def jsonQuote (s : String) : String :=
  ⟨'"' :: s.data.foldr (fun c acc => jsonEscapeChar c ++ acc) ['"']⟩

mutual

/-- JSON.stringify(v, null, 2) at current indentation `ind`: the ECMA
serialization with a two-space gap.  Empty containers print flat; nonempty
containers put each entry on a line indented two further spaces, separated by
commas, and close at the original indentation. -/
def jppV (ind : String) : JsValue → String
  | .str s => jsonQuote s
  | .num n => jsNumToString n
  | .boolean b => cond b "true" "false"
  | .null => "null"
  | .arr [] => "[]"
  | .arr (x :: xs) => "[\n" ++ jppItems (ind ++ "  ") (x :: xs) ++ "\n" ++ ind ++ "]"
  | .obj [] => "\x7b\x7d"
  | .obj (f :: fs) => "\x7b\n" ++ jppFields (ind ++ "  ") (f :: fs) ++ "\n" ++ ind ++ "\x7d"

/-- The comma-and-newline separated array items, each indented by `ind`. -/
def jppItems (ind : String) : List JsValue → String
  | [] => ""
  | [x] => ind ++ jppV ind x
  | x :: y :: xs => ind ++ jppV ind x ++ ",\n" ++ jppItems ind (y :: xs)

/-- The comma-and-newline separated object members, each indented by `ind`. -/
def jppFields (ind : String) : List (String × JsValue) → String
  | [] => ""
  | [(k, v)] => ind ++ jsonQuote k ++ ": " ++ jppV ind v
  | (k, v) :: f :: fs => ind ++ jsonQuote k ++ ": " ++ jppV ind v ++ ",\n" ++ jppFields ind (f :: fs)

end

mutual

/-- JSON.stringify(v) with no gap: the compact ECMA serialization, used by the
scripts when serializing each agent input. -/
def jscV : JsValue → String
  | .str s => jsonQuote s
  | .num n => jsNumToString n
  | .boolean b => cond b "true" "false"
  | .null => "null"
  | .arr xs => "[" ++ jscItems xs ++ "]"
  | .obj fs => "\x7b" ++ jscFields fs ++ "\x7d"

/-- Comma-separated compact array items. -/
def jscItems : List JsValue → String
  | [] => ""
  | [x] => jscV x
  | x :: y :: xs => jscV x ++ "," ++ jscItems (y :: xs)

/-- Comma-separated compact object members. -/
def jscFields : List (String × JsValue) → String
  | [] => ""
  | [(k, v)] => jsonQuote k ++ ":" ++ jscV v
  | (k, v) :: f :: fs => jsonQuote k ++ ":" ++ jscV v ++ "," ++ jscFields (f :: fs)

end

/-- JSON.stringify(v, null, 2) as called in the render loop. -/
def jsonStringify2 (v : JsValue) : String := jppV "" v

/-- Whether the character is an ASCII uppercase letter, the class matched by
the regular expression group ([A-Z]) of the render loop. -/
def isUpperAZ (c : Char) : Bool := decide ('A' ≤ c) && decide (c ≤ 'Z')

/-- The replacement on the character list: a space inserted before every
ASCII uppercase letter. -/
def spaceCapsList : List Char → List Char
  | [] => []
  | c :: rest => if isUpperAZ c then ' ' :: c :: spaceCapsList rest else c :: spaceCapsList rest

/-- The replacement stage of the title computation, modelling
jobName.replace(/([A-Z])/g, ...): a space inserted before every ASCII
uppercase letter. -/
def spaceBeforeCaps (s : String) : String := ⟨spaceCapsList s.data⟩

/-- Whether a character is stripped by the JavaScript String.prototype.trim:
the WhiteSpace and LineTerminator characters of the ECMA specification. -/
def isJsWhite (c : Char) : Bool :=
  [0x9, 0xA, 0xB, 0xC, 0xD, 0x20, 0xA0, 0x1680, 0x2028, 0x2029,
   0x202F, 0x205F, 0x3000, 0xFEFF].contains c.toNat
  || (decide (0x2000 ≤ c.toNat) && decide (c.toNat ≤ 0x200A))

/-- JavaScript .trim(): whitespace removed from both ends. -/
def jsTrim (s : String) : String :=
  ⟨((s.data.dropWhile isJsWhite).reverse.dropWhile isJsWhite).reverse⟩

/-- The title shown for a job name, as computed in both render loops by
jobName.replace(/([A-Z])/g, ...) followed by .trim(): a space before every
uppercase letter, then trimmed. -/
def titleize (jobName : String) : String := jsTrim (spaceBeforeCaps jobName)

/-- The value of the resultText variable of the render loop: object-typed
values (objects, arrays, null) are replaced by their two-space-indented JSON
text, all other values kept as they are. -/
def resultTextVal (v : JsValue) : JsValue :=
  if typeofObject v then .str (jsonStringify2 v) else v

/-- The text a result contributes to the report body: resultText as it is
interpolated into the template literal. -/
def stringifyResult (v : JsValue) : String := jsToString (resultTextVal v)

/-- The interpolation of resultText.length: the UTF-16 length for strings,
and the text undefined when resultText is a non-string (a number or boolean
result reaches the success branch without having a .length property). -/
def lengthAnnStr (v : JsValue) : String :=
  match resultTextVal v with
  | .str s => natToString (utf16Len s)
  | _ => "undefined"

/-- One rendered report section, described abstractly: its heading title, the
body text shown for it, and whether it is the warning form.  Derived per job
name at render time, never stored by the scripts. -/
structure RSection where
  title : String
  body : String
  isWarning : Bool
deriving DecidableEq

/-- The body text of the warning paragraph emitted for a job with no usable
result. -/
def warningBodyText : String := "WARNING: No results found for this step."

/-- The section the render loop derives for one job name: the truthiness of
results[jobName] selects the success form (titleized heading, stringified
body) or the warning form. -/
def renderSection (results : List (String × JsValue)) (name : String) : RSection :=
  match jsGet results name with
  | some v =>
      if truthy v then ⟨titleize name, stringifyResult v, false⟩
      else ⟨titleize name, warningBodyText, true⟩
  | none => ⟨titleize name, warningBodyText, true⟩

/-- The sections of a report, one per name of the ordered workflow list, in
that order. -/
def sectionsFor (names : List String) (results : List (String × JsValue)) : List RSection :=
  names.map (renderSection results)

/-- The fixed heading opener of both section template literals. -/
def sectionHeadOpen : String := "<h2>"

/-- The fixed text between the title and the length interpolation of the
success template. -/
def sectionSpanOpen : String := " <span style=\x27font-size:0.7em;color:#888;\x27>(length: "

/-- The fixed text between the length and the body interpolation of the
success template: the annotation close, heading close, and pre opener. -/
def sectionSpanClose : String := " characters)</span></h2>\n<pre>"

/-- The fixed closing of the success template. -/
def sectionPreClose : String := "</pre>\n"

/-- The fixed remainder of the warning template after the title. -/
def warningTail : String :=
  "</h2>\n<p class=\x27warning\x27>WARNING: No results found for this step.</p>\n"

/-- The HTML appended for a truthy result, exactly the success-branch
template literal of the render loop. -/
def successHtml (name : String) (v : JsValue) : String :=
  sectionHeadOpen ++ titleize name ++ sectionSpanOpen ++ lengthAnnStr v ++
    sectionSpanClose ++ stringifyResult v ++ sectionPreClose

/-- The HTML appended for a missing or falsy result, exactly the else-branch
template literal of the render loop. -/
def warningHtml (name : String) : String :=
  sectionHeadOpen ++ titleize name ++ warningTail

/-- The HTML one loop iteration appends for a job name. -/
def sectionHtmlFor (results : List (String × JsValue)) (name : String) : String :=
  match jsGet results name with
  | some v => if truthy v then successHtml name v else warningHtml name
  | none => warningHtml name

/-- The concatenated section HTML of the whole loop. -/
def sectionsHtml (names : List String) (results : List (String × JsValue)) : String :=
  String.join (names.map (sectionHtmlFor results))

/-- The console lines one loop iteration prints for a job name. -/
def consoleFor (results : List (String × JsValue)) (name : String) : List String :=
  match jsGet results name with
  | some v =>
      if truthy v then
        [titleize name ++ " (length: " ++ lengthAnnStr v ++ " characters):",
         stringifyResult v, "\n"]
      else ["WARNING: No " ++ name ++ " results found!"]
  | none => ["WARNING: No " ++ name ++ " results found!"]

/-- Separator join of a list of strings, modelling Array.prototype.join. -/
def joinSep (sep : String) : List String → String
  | [] => ""
  | [x] => x
  | x :: y :: xs => x ++ sep ++ joinSep sep (y :: xs)

/-- The console rendering Node gives an array of keys, as in
console.log(..., Object.keys(results)). -/
def nodeInspectKeys (keys : List String) : String :=
  match keys with
  | [] => "[]"
  | _ => "[ " ++ joinSep ", " (keys.map fun k => "\x27" ++ k ++ "\x27") ++ " ]"

/-- The console transcript of the result display: the header enumerating the
keys of the results object in its own insertion order, then the per-job
blocks in workflow order. -/
def consoleTranscript (names : List String) (results : List (String × JsValue)) : List String :=
  ("Results object contains keys: " ++ nodeInspectKeys (keysOf results)) :: "\n"
    :: (names.map (consoleFor results)).flatten

/-- The fixed document text preceding the interpolated key list: doctype,
head, embedded style block, page heading and the start of the key line. -/
def preludeFixedA : String :=
  "<!DOCTYPE html>\n<html lang=\"en\">\n<head>\n<meta charset=\"UTF-8\">\n<title>Vacation Planning Results</title>\n<style>\nbody \x7b font-family: Arial, sans-serif; margin: 2em; background: #f9f9f9; \x7d\nh1 \x7b color: #2a7ae2; \x7d\nh2 \x7b color: #333; border-bottom: 1px solid #eee; padding-bottom: 0.2em; \x7d\npre \x7b background: #f4f4f4; padding: 1em; border-radius: 6px; overflow-x: auto; \x7d\n.warning \x7b color: #b00; font-weight: bold; \x7d\n</style>\n</head>\n<body>\n<h1>Vacation Planning Results</h1>\n<p><strong>Results object contains keys:</strong> [ "

/-- The fixed text closing the key line. -/
def preludeFixedB : String := " ]</p>\n"

/-- The htmlContent value before the render loop runs: the fixed document
head with the keys of the results object interpolated in insertion order,
joined by Object.keys(results).join of the template literal. -/
def htmlPrelude (results : List (String × JsValue)) : String :=
  preludeFixedA ++ joinSep ", " (keysOf results) ++ preludeFixedB

/-- The closing appended by vp9.js after its render loop. -/
def vp9Footer : String := "</body>\n</html>"

/-- The closing appended by vp8.js after its render loop, with its unmatched
closing div tag. -/
def vp8Footer : String := "</div></body></html>"

/-- The complete HTML document written by vp9.js for a given workflow order
and results object. -/
def vp9HtmlReport (names : List String) (results : List (String × JsValue)) : String :=
  htmlPrelude results ++ sectionsHtml names results ++ vp9Footer

/-- The hard-coded expected job names of vp8.js. -/
def vp8JobNames : List String :=
  ["planGoals", "suggestDestinations", "researchDestinations", "findAccommodations",
   "findTransportation", "planActivities", "planDining", "createBudget",
   "createItinerary", "reviewPlan"]

/-- The complete HTML document written by vp8.js. -/
def vp8HtmlReport (results : List (String × JsValue)) : String :=
  htmlPrelude results ++ sectionsHtml vp8JobNames results ++ vp8Footer

/-- Whether the pattern is a leading segment of the text. -/
def matchesAt : List Char → List Char → Bool
  | [], _ => true
  | _ :: _, [] => false
  | a :: as, b :: bs => if a = b then matchesAt as bs else false

/-- The number of positions of the text at which the pattern occurs. -/
def occurs (p : List Char) : List Char → Nat
  | [] => 0
  | c :: s => (if matchesAt p (c :: s) then 1 else 0) + occurs p s

/-- Occurrence count of the pattern string inside the text string. -/
def occursStr (p s : String) : Nat := occurs p.data s.data

/-- Whether some nonempty strict tail of the text is a leading segment of the
pattern, so that an occurrence of the pattern could straddle the border
between this text and what is appended after it. -/
def spanRisk (p : List Char) : List Char → Bool
  | [] => false
  | c :: s => (decide ((c :: s).length < p.length) && matchesAt (c :: s) p) || spanRisk p s

/-- The pattern string occurs somewhere inside the text string. -/
def SubstrOf (p s : String) : Prop := ∃ a b, s = a ++ p ++ b

theorem matchesAt_length_le {p s : List Char} (h : matchesAt p s = true) :
    p.length ≤ s.length := by
  induction p generalizing s with
  | nil => simp
  | cons a as ih =>
    cases s with
    | nil => simp [matchesAt] at h
    | cons b bs =>
      simp only [matchesAt] at h
      by_cases hab : a = b
      · simp only [hab, if_pos rfl] at h
        simpa using ih h
      · simp [hab] at h

theorem matchesAt_append_of_le {p s : List Char} (t : List Char)
    (h : p.length ≤ s.length) : matchesAt p (s ++ t) = matchesAt p s := by
  induction p generalizing s with
  | nil => simp [matchesAt]
  | cons a as ih =>
    cases s with
    | nil => simp at h
    | cons b bs =>
      simp only [List.cons_append, matchesAt]
      by_cases hab : a = b
      · simp only [hab, if_pos rfl]
        exact ih (by simpa using h)
      · simp [hab]

theorem matchesAt_append_start {p s t : List Char}
    (h : matchesAt p (s ++ t) = true) (hlen : s.length < p.length) :
    matchesAt s p = true := by
  induction s generalizing p with
  | nil => simp [matchesAt]
  | cons c cs ih =>
    cases p with
    | nil => simp at hlen
    | cons a as =>
      simp only [List.cons_append, matchesAt] at h ⊢
      by_cases hac : a = c
      · subst hac
        simp only [if_pos rfl] at h ⊢
        exact ih h (by simpa using hlen)
      · simp [hac] at h

theorem matchesAt_self_append (p t : List Char) : matchesAt p (p ++ t) = true := by
  induction p with
  | nil => simp [matchesAt]
  | cons a as ih => simpa [matchesAt] using ih

theorem matchesAt_iff_exists {p s : List Char} :
    matchesAt p s = true ↔ ∃ t, s = p ++ t := by
  constructor
  · intro h
    induction p generalizing s with
    | nil => exact ⟨s, rfl⟩
    | cons a as ih =>
      cases s with
      | nil => simp [matchesAt] at h
      | cons b bs =>
        simp only [matchesAt] at h
        by_cases hab : a = b
        · subst hab
          simp only [if_pos rfl] at h
          obtain ⟨t, ht⟩ := ih h
          exact ⟨t, by simp [ht]⟩
        · simp [hab] at h
  · rintro ⟨t, rfl⟩
    exact matchesAt_self_append p t

theorem occurs_append_of_noSpan {p F : List Char} (rest : List Char)
    (h : spanRisk p F = false) :
    occurs p (F ++ rest) = occurs p F + occurs p rest := by
  induction F with
  | nil => simp [occurs]
  | cons c F' ih =>
    simp only [spanRisk, Bool.or_eq_false_iff, Bool.and_eq_false_iff] at h
    obtain ⟨hhead, htail⟩ := h
    have ihr := ih htail
    have estep : (c :: F') ++ rest = c :: (F' ++ rest) := rfl
    have e1 : occurs p (c :: (F' ++ rest)) =
        (if matchesAt p (c :: (F' ++ rest)) then 1 else 0) + occurs p (F' ++ rest) := rfl
    have e2 : occurs p (c :: F') =
        (if matchesAt p (c :: F') then 1 else 0) + occurs p F' := rfl
    rw [estep, e1, e2, ihr]
    by_cases hlen : (c :: F').length < p.length
    · have h1 : matchesAt p (c :: F') = false := by
        cases hm : matchesAt p (c :: F') with
        | false => rfl
        | true => exact absurd (matchesAt_length_le hm) (by omega)
      have h2 : matchesAt p (c :: (F' ++ rest)) = false := by
        cases hm : matchesAt p (c :: (F' ++ rest)) with
        | false => rfl
        | true =>
          rw [← estep] at hm
          have hstart := matchesAt_append_start hm hlen
          rcases hhead with hL | hM
          · simp only [decide_eq_false_iff_not] at hL
            exact absurd hlen hL
          · rw [hstart] at hM
            exact absurd hM (by simp)
      rw [h1, h2]
      simp
    · have hle : p.length ≤ (c :: F').length := by omega
      have heq := matchesAt_append_of_le (p := p) (s := c :: F') rest hle
      rw [estep] at heq
      rw [heq]
      cases matchesAt p (c :: F')
      all_goals simp
      all_goals omega

theorem occurs_clean_append {t : List Char} (q rest : List Char)
    (h : ∀ c ∈ t, ¬ c = '<') :
    occurs ('<' :: q) (t ++ rest) = occurs ('<' :: q) rest := by
  induction t with
  | nil => simp
  | cons c t' ih =>
    have hc : ¬ ('<' = c) := fun hh => h c (by simp) hh.symm
    simp only [List.cons_append, occurs, matchesAt, if_neg hc]
    simpa using ih (fun d hd => h d (by simp [hd]))

theorem occurs_clean {t : List Char} (q : List Char) (h : ∀ c ∈ t, ¬ c = '<') :
    occurs ('<' :: q) t = 0 := by
  have := occurs_clean_append (t := t) q [] h
  simpa [occurs] using this

theorem occurs_pos_iff {p l : List Char} (hp : p ≠ []) :
    0 < occurs p l ↔ ∃ a b, l = a ++ p ++ b := by
  constructor
  · intro h
    induction l with
    | nil => simp [occurs] at h
    | cons c s ih =>
      simp only [occurs] at h
      cases hm : matchesAt p (c :: s) with
      | true =>
        obtain ⟨t, ht⟩ := matchesAt_iff_exists.mp hm
        exact ⟨[], t, by simp [ht]⟩
      | false =>
        rw [hm] at h
        simp at h
        obtain ⟨a, b, hab⟩ := ih (by omega)
        exact ⟨c :: a, b, by simp [hab]⟩
  · rintro ⟨a, b, rfl⟩
    induction a with
    | nil =>
      cases p with
      | nil => exact absurd rfl hp
      | cons x xs =>
        have e1 : ([] : List Char) ++ (x :: xs) ++ b = x :: (xs ++ b) := by simp
        rw [e1]
        have e2 : occurs (x :: xs) (x :: (xs ++ b)) =
            (if matchesAt (x :: xs) (x :: (xs ++ b)) then 1 else 0)
              + occurs (x :: xs) (xs ++ b) := rfl
        have hm : matchesAt (x :: xs) (x :: (xs ++ b)) = true :=
          matchesAt_self_append (x :: xs) b
        rw [e2, hm]
        simp
    | cons c a' ih =>
      have e1 : (c :: a') ++ p ++ b = c :: (a' ++ p ++ b) := by simp
      rw [e1]
      have e2 : occurs p (c :: (a' ++ p ++ b)) =
          (if matchesAt p (c :: (a' ++ p ++ b)) then 1 else 0)
            + occurs p (a' ++ p ++ b) := rfl
      rw [e2]
      omega

theorem substrOf_iff_occurs {p s : String} (hp : p ≠ "") :
    SubstrOf p s ↔ 0 < occursStr p s := by
  have hpd : p.data ≠ [] := by
    intro hh
    apply hp
    cases p
    simp_all
  rw [occursStr, occurs_pos_iff hpd]
  constructor
  · rintro ⟨a, b, rfl⟩
    exact ⟨a.data, b.data, by simp⟩
  · rintro ⟨a, b, hab⟩
    refine ⟨⟨a⟩, ⟨b⟩, ?_⟩
    have e1 : (⟨a⟩ ++ p ++ ⟨b⟩ : String) = ⟨a ++ p.data ++ b⟩ := by
      cases p
      rfl
    rw [e1]
    apply String.ext
    simpa using hab

theorem renderSection_title (results : List (String × JsValue)) (name : String) :
    (renderSection results name).title = titleize name := by
  unfold renderSection
  rcases jsGet results name with _ | v
  · rfl
  · dsimp only
    split <;> rfl

theorem renderSection_congr {results results' : List (String × JsValue)} (name : String)
    (h : jsGet results name = jsGet results' name) :
    renderSection results name = renderSection results' name := by
  unfold renderSection
  rw [h]

theorem sectionHtmlFor_congr {results results' : List (String × JsValue)} (name : String)
    (h : jsGet results name = jsGet results' name) :
    sectionHtmlFor results name = sectionHtmlFor results' name := by
  unfold sectionHtmlFor
  rw [h]

theorem filter_sections_eq (names : List String) (results : List (String × JsValue))
    (name : String) (hcount : names.count name = 1)
    (hinj : ∀ m ∈ names, titleize m = titleize name → m = name) :
    (sectionsFor names results).filter (fun s => s.title == titleize name) =
      [renderSection results name] := by
  induction names with
  | nil => simp at hcount
  | cons m rest ih =>
    by_cases hm : m = name
    · subst hm
      have hrest : m ∉ rest := by
        have := List.count_cons_self m rest
        simp only [List.count_cons_self] at hcount
        intro hmem
        have := List.count_pos_iff.mpr hmem
        omega
      have hnil : (sectionsFor rest results).filter (fun s => s.title == titleize m) = [] := by
        rw [List.filter_eq_nil_iff]
        intro a ha
        obtain ⟨m', hm', rfl⟩ := List.mem_map.mp ha
        have hne : titleize m' ≠ titleize m := by
          intro he
          exact hrest ((hinj m' (by simp [hm']) he) ▸ hm')
        simp [renderSection_title, hne]
      have hkeep : ((renderSection results m).title == titleize m) = true := by
        simp [renderSection_title]
      simp only [sectionsFor, List.map_cons, List.filter_cons, hkeep, if_pos]
      rw [show List.map (renderSection results) rest = sectionsFor rest results from rfl, hnil]
    · have hne : titleize m ≠ titleize name := by
        intro he
        exact hm (hinj m (by simp) he)
      have hskip : ((renderSection results m).title == titleize name) = false := by
        simp [renderSection_title, hne]
      simp only [sectionsFor, List.map_cons, List.filter_cons, hskip]
      simp only [Bool.false_eq_true, if_false]
      refine ih ?_ (fun m' h1 h2 => hinj m' (by simp [h1]) h2)
      rwa [List.count_cons_of_ne (fun h => hm h.symm)] at hcount

/-- The results table of the C1 counterexample: the planGoals entry is
present but holds the empty string, a falsy value. -/
def c1Results : List (String × JsValue) := [("planGoals", JsValue.str "")]

/-- Claim C1 counterexample: presence of an entry does not decide the branch.
With results holding the entry planGoals = "" (present but falsy), the render
loop takes the warning branch for planGoals: the emitted section is the
warning section and no non-warning section is emitted for the name, refuting
the claim that any present entry, falsy or not, gets a success section. -/
theorem c1_counterexample :
    jsGet c1Results "planGoals" = some (JsValue.str "") ∧
    renderSection c1Results "planGoals" = ⟨"plan Goals", warningBodyText, true⟩ ∧
    sectionHtmlFor c1Results "planGoals" = warningHtml "planGoals" ∧
    sectionsFor ["planGoals"] c1Results = [⟨"plan Goals", warningBodyText, true⟩] := by
  refine ⟨rfl, rfl, rfl, rfl⟩

/-- Claim C1 as amended: truthiness of the entry, not mere presence, decides
the branch.  For every job name whose entry in the results mapping is truthy
(in particular every object result, error sentinels included), the render
loop emits the success section titled via titleize with body
stringifyResult(results[name]), and it is the unique section carrying that
title when the name occurs once in the workflow list and no other listed name
titleizes to the same string; an entry that is absent or falsy gets the
warning section instead. -/
theorem c1_amended :
    (∀ results name v, jsGet results name = some v → truthy v = true →
        renderSection results name = ⟨titleize name, stringifyResult v, false⟩ ∧
        sectionHtmlFor results name = successHtml name v) ∧
    (∀ results name, entryTruthy results name = false →
        renderSection results name = ⟨titleize name, warningBodyText, true⟩ ∧
        sectionHtmlFor results name = warningHtml name) ∧
    (∀ names results name v, jsGet results name = some v → truthy v = true →
        names.count name = 1 →
        (∀ m ∈ names, titleize m = titleize name → m = name) →
        (sectionsFor names results).filter (fun s => s.title == titleize name) =
          [⟨titleize name, stringifyResult v, false⟩]) := by
  refine ⟨?_, ?_, ?_⟩
  · intro results name v hget htr
    unfold renderSection sectionHtmlFor
    rw [hget]
    simp [htr]
  · intro results name htr
    unfold entryTruthy at htr
    unfold renderSection sectionHtmlFor
    rcases hget : jsGet results name with _ | v
    · exact ⟨rfl, rfl⟩
    · rw [hget] at htr
      have htr' : truthy v = false := htr
      dsimp only
      rw [htr']
      simp
  · intro names results name v hget htr hcount hinj
    rw [filter_sections_eq names results name hcount hinj]
    unfold renderSection
    rw [hget]
    simp [htr]

/-- Witness for the amended claim C1 at a concrete truthy entry: the error
sentinel object is truthy, so it renders as a success section. -/
theorem c1_amended_witness :
    renderSection [("planGoals", JsValue.obj [("error", JsValue.str "Agent not found")])]
        "planGoals" =
      ⟨titleize "planGoals",
       stringifyResult (JsValue.obj [("error", JsValue.str "Agent not found")]), false⟩ ∧
    sectionHtmlFor [("planGoals", JsValue.obj [("error", JsValue.str "Agent not found")])]
        "planGoals" =
      successHtml "planGoals" (JsValue.obj [("error", JsValue.str "Agent not found")]) :=
  c1_amended.1 _ "planGoals" _ rfl rfl

theorem sections_titles (names : List String) (results : List (String × JsValue)) :
    (sectionsFor names results).map RSection.title = names.map titleize := by
  induction names with
  | nil => rfl
  | cons m rest ih =>
    simp only [sectionsFor, List.map_cons] at *
    rw [renderSection_title, ih]

/-- Claim C2: the sections of the rendered report appear exactly in the
order of the workflow name list — their titles are the titleized names in
list order — and they are entirely determined by the lookup function of the
results mapping, hence independent of the insertion or iteration order of
its entries. -/
theorem c2_section_order :
    (∀ names results, (sectionsFor names results).map RSection.title = names.map titleize) ∧
    (∀ names results results',
        (∀ n, jsGet results n = jsGet results' n) →
        sectionsFor names results = sectionsFor names results' ∧
        sectionsHtml names results = sectionsHtml names results') := by
  constructor
  · exact sections_titles
  · intro names results results' h
    constructor
    · unfold sectionsFor
      induction names with
      | nil => rfl
      | cons m rest ih =>
        simp only [List.map_cons]
        rw [renderSection_congr m (h m), ih]
    · unfold sectionsHtml
      have hmaps : List.map (sectionHtmlFor results) names =
          List.map (sectionHtmlFor results') names := by
        induction names with
        | nil => rfl
        | cons m rest ih =>
          simp only [List.map_cons]
          rw [sectionHtmlFor_congr m (h m), ih]
      rw [hmaps]

/-- The results mapping of the C2 witness in its populated order. -/
def c2ResultsA : List (String × JsValue) :=
  [("suggestDestinations", JsValue.str "B"), ("planGoals", JsValue.str "A")]

/-- The same mapping with its entries inserted in the opposite order. -/
def c2ResultsB : List (String × JsValue) :=
  [("planGoals", JsValue.str "A"), ("suggestDestinations", JsValue.str "B")]

/-- Witness for claim C2 at the example of the specification: the two
insertion orders of the same two results give identical section lists and
identical section HTML for the workflow order planGoals then
suggestDestinations. -/
theorem c2_section_order_witness :
    sectionsFor ["planGoals", "suggestDestinations"] c2ResultsA =
      sectionsFor ["planGoals", "suggestDestinations"] c2ResultsB ∧
    sectionsHtml ["planGoals", "suggestDestinations"] c2ResultsA =
      sectionsHtml ["planGoals", "suggestDestinations"] c2ResultsB := by
  have h : ∀ n, jsGet c2ResultsA n = jsGet c2ResultsB n := by
    intro n
    by_cases h1 : "suggestDestinations" = n
    · subst h1
      rfl
    · by_cases h2 : "planGoals" = n
      · subst h2
        rfl
      · simp [c2ResultsA, c2ResultsB, jsGet, h1, h2]
  exact c2_section_order.2 ["planGoals", "suggestDestinations"] c2ResultsA c2ResultsB h

/-- Claim C3 counterexample: for the absent job name planGoals the render
loop emits its warning without raising, but the console line is built from
the raw job name, not the titleized one, and the warning paragraph body
carries a WARNING: marker rather than being exactly the claimed fixed text.
With workflow list [planGoals] and empty results: the console warning line
is WARNING: No planGoals results found!, no transcript line begins with the
titleized WARNING: No plan Goals, and the warning paragraph with the claimed
body text never occurs in the emitted HTML. -/
theorem c3_counterexample :
    consoleFor [] "planGoals" = ["WARNING: No planGoals results found!"] ∧
    ((consoleTranscript ["planGoals"] []).all
      (fun line => matchesAt ("WARNING: No plan Goals").data line.data = false)) = true ∧
    warningHtml "planGoals" =
      "<h2>plan Goals</h2>\n<p class=\x27warning\x27>WARNING: No results found for this step.</p>\n" ∧
    occursStr "<p class=\x27warning\x27>No results found for this step.</p>"
      (warningHtml "planGoals") = 0 := by
  refine ⟨rfl, by decide, rfl, by decide⟩

/-- Claim C3 as amended: for every job name of the workflow list with no
entry in the results mapping, the loop (a total function, raising nothing)
emits the warning section, titled via titleize, whose paragraph body is the
fixed text WARNING: No results found for this step., that section being the
unique one with that title when the name occurs once in the list and no
other listed name titleizes to the same string; and the console transcript
contains a line beginning WARNING: No followed by the raw (untitleized) job
name, namely WARNING: No name results found!. -/
theorem c3_amended :
    ∀ names results name, jsGet results name = none → name ∈ names →
      ("WARNING: No " ++ name ++ " results found!") ∈ consoleTranscript names results ∧
      matchesAt ("WARNING: No " ++ name).data
        ("WARNING: No " ++ name ++ " results found!").data = true ∧
      sectionHtmlFor results name = warningHtml name ∧
      (names.count name = 1 → (∀ m ∈ names, titleize m = titleize name → m = name) →
        (sectionsFor names results).filter (fun s => s.title == titleize name) =
          [⟨titleize name, warningBodyText, true⟩]) := by
  intro names results name hget hmem
  refine ⟨?_, ?_, ?_, ?_⟩
  · unfold consoleTranscript
    refine List.mem_cons_of_mem _ (List.mem_cons_of_mem _ ?_)
    refine List.mem_flatten.mpr ⟨consoleFor results name, List.mem_map_of_mem _ hmem, ?_⟩
    simp [consoleFor, hget]
  · have hdata : ("WARNING: No " ++ name ++ " results found!").data =
        ("WARNING: No " ++ name).data ++ (" results found!").data := by
      simp
    rw [hdata]
    exact matchesAt_self_append _ _
  · unfold sectionHtmlFor
    rw [hget]
  · intro hcount hinj
    rw [filter_sections_eq names results name hcount hinj]
    unfold renderSection
    rw [hget]

/-- Witness for the amended claim C3: with workflow list
[planGoals, createBudget] and a results mapping holding only planGoals, the
absent name createBudget produces its console warning line and its unique
warning section. -/
theorem c3_amended_witness :
    ("WARNING: No " ++ "createBudget" ++ " results found!") ∈
      consoleTranscript ["planGoals", "createBudget"] [("planGoals", JsValue.str "A")] ∧
    matchesAt ("WARNING: No " ++ "createBudget").data
      ("WARNING: No " ++ "createBudget" ++ " results found!").data = true ∧
    sectionHtmlFor [("planGoals", JsValue.str "A")] "createBudget" =
      warningHtml "createBudget" ∧
    (["planGoals", "createBudget"].count "createBudget" = 1 →
      (∀ m ∈ ["planGoals", "createBudget"],
        titleize m = titleize "createBudget" → m = "createBudget") →
      (sectionsFor ["planGoals", "createBudget"] [("planGoals", JsValue.str "A")]).filter
          (fun s => s.title == titleize "createBudget") =
        [⟨titleize "createBudget", warningBodyText, true⟩]) :=
  c3_amended ["planGoals", "createBudget"] [("planGoals", JsValue.str "A")]
    "createBudget" rfl (by simp)

theorem substrOf_joinSep {k : String} {l : List String} (h : k ∈ l) :
    SubstrOf k (joinSep ", " l) := by
  induction l with
  | nil => simp at h
  | cons x rest ih =>
    rcases List.mem_cons.mp h with h | h
    · subst h
      cases rest with
      | nil => exact ⟨"", "", by simp [joinSep]⟩
      | cons y ys =>
        refine ⟨"", ", " ++ joinSep ", " (y :: ys), ?_⟩
        simp [joinSep, String.append_assoc]
    · cases rest with
      | nil => simp at h
      | cons y ys =>
        obtain ⟨a, b, hab⟩ := ih h
        refine ⟨x ++ ", " ++ a, b, ?_⟩
        simp [joinSep, hab, String.append_assoc]

theorem substrOf_embed {p s : String} (x y : String) (h : SubstrOf p s) :
    SubstrOf p (x ++ s ++ y) := by
  obtain ⟨a, b, rfl⟩ := h
  exact ⟨x ++ a, b ++ y, by simp [String.append_assoc]⟩

/-- Claim C10: a key present in the results mapping but not listed in the
workflow name list is enumerated in the header line of the report (the
prelude interpolates the keys of the results object, in its own insertion
order), yet contributes no section: the section titles are exactly the
titleized workflow names. -/
theorem c10_extra_key :
    ∀ names results k, k ∈ keysOf results → k ∉ names →
      SubstrOf k (htmlPrelude results) ∧
      htmlPrelude results =
        preludeFixedA ++ joinSep ", " (keysOf results) ++ preludeFixedB ∧
      (sectionsFor names results).map RSection.title = names.map titleize ∧
      vp9HtmlReport names results =
        htmlPrelude results ++ sectionsHtml names results ++ vp9Footer := by
  intro names results k hk _
  refine ⟨?_, rfl, sections_titles names results, rfl⟩
  unfold htmlPrelude
  exact substrOf_embed _ _ (substrOf_joinSep hk)

/-- Witness for claim C10: a results mapping with the unlisted key
extraneousKey appears in the header of the report while the single section
title is the titleized planGoals. -/
theorem c10_extra_key_witness :
    SubstrOf "extraneousKey"
      (htmlPrelude [("planGoals", JsValue.str "A"), ("extraneousKey", JsValue.str "B")]) ∧
    htmlPrelude [("planGoals", JsValue.str "A"), ("extraneousKey", JsValue.str "B")] =
      preludeFixedA ++
        joinSep ", " (keysOf [("planGoals", JsValue.str "A"), ("extraneousKey", JsValue.str "B")])
        ++ preludeFixedB ∧
    (sectionsFor ["planGoals"]
        [("planGoals", JsValue.str "A"), ("extraneousKey", JsValue.str "B")]).map
        RSection.title = ["planGoals"].map titleize ∧
    vp9HtmlReport ["planGoals"] [("planGoals", JsValue.str "A"), ("extraneousKey", JsValue.str "B")] =
      htmlPrelude [("planGoals", JsValue.str "A"), ("extraneousKey", JsValue.str "B")] ++
        sectionsHtml ["planGoals"] [("planGoals", JsValue.str "A"), ("extraneousKey", JsValue.str "B")]
        ++ vp9Footer :=
  c10_extra_key ["planGoals"] [("planGoals", JsValue.str "A"), ("extraneousKey", JsValue.str "B")]
    "extraneousKey" (by simp [keysOf]) (by simp)

/-- The error sentinel stored for a job whose agent is absent from the
loaded configuration. -/
def agentNotFoundSentinel : JsValue := JsValue.obj [("error", JsValue.str "Agent not found")]

/-- Object construction for a step input whose field values are property
reads that may be undefined: JSON.stringify omits members holding undefined,
and the constructed object is stringified immediately, so the omission is
folded into the construction. -/
def objOfDefined (fields : List (String × Option JsValue)) : JsValue :=
  JsValue.obj (fields.filterMap fun kv => kv.2.map fun v => (kv.1, v))

/-- One step of the manually executed workflow of the second program of
src/vp9.js: the results key it assigns, the agent identifier it looks up,
and the serialized input it passes to the agent run, built from the results
accumulated so far. -/
structure WStep where
  jobKey : String
  agentId : String
  mkInput : List (String × JsValue) → String

/-- The ten steps of the second program of src/vp9.js in program order, each
with the input object its source constructs from earlier results before
JSON.stringify-ing it. -/
def vp9bSteps (brief : JsValue) : List WStep :=
  [⟨"planGoals", "goalPlanner", fun _ => jscV brief⟩,
   ⟨"suggestDestinations", "destinationSuggester", fun res =>
      jscV (objOfDefined [("travelerPreferences", jsGet res "planGoals")])⟩,
   ⟨"researchDestinations", "destinationResearcher", fun res =>
      jscV (objOfDefined [("parsedVacationDetails", jsGet res "planGoals"),
                          ("chosenDestination", jsGet res "suggestDestinations")])⟩,
   ⟨"findAccommodations", "accommodationAgent", fun res =>
      jscV (objOfDefined [("parsedVacationDetails", jsGet res "planGoals"),
                          ("destinationResults", jsGet res "researchDestinations")])⟩,
   ⟨"findTransportation", "transportAgent", fun res =>
      jscV (objOfDefined [("parsedVacationDetails", jsGet res "planGoals"),
                          ("destinationResults", jsGet res "researchDestinations")])⟩,
   ⟨"planActivities", "activityPlanner", fun res =>
      jscV (objOfDefined [("parsedVacationDetails", jsGet res "planGoals"),
                          ("destinationResults", jsGet res "researchDestinations")])⟩,
   ⟨"planDining", "diningAgent", fun res =>
      jscV (objOfDefined [("parsedVacationDetails", jsGet res "planGoals"),
                          ("destinationResults", jsGet res "researchDestinations")])⟩,
   ⟨"createBudget", "budgetingAgent", fun res =>
      jscV (objOfDefined [("parsedVacationDetails", jsGet res "planGoals"),
                          ("destinationResults", jsGet res "researchDestinations"),
                          ("accommodationsResults", jsGet res "findAccommodations"),
                          ("transportResults", jsGet res "findTransportation"),
                          ("activitiesResults", jsGet res "planActivities"),
                          ("diningResults", jsGet res "planDining")])⟩,
   ⟨"createItinerary", "itineraryCoordinator", fun res =>
      jscV (objOfDefined [("parsedVacationDetails", jsGet res "planGoals"),
                          ("destinationResults", jsGet res "researchDestinations"),
                          ("accommodationsResults", jsGet res "findAccommodations"),
                          ("transportResults", jsGet res "findTransportation"),
                          ("activitiesResults", jsGet res "planActivities"),
                          ("diningResults", jsGet res "planDining"),
                          ("budgetSummary", jsGet res "createBudget")])⟩,
   ⟨"reviewPlan", "reviewAndRefineAgent", fun res =>
      jscV (objOfDefined [("parsedVacationDetails", jsGet res "planGoals"),
                          ("destinationResults", jsGet res "researchDestinations"),
                          ("accommodationsResults", jsGet res "findAccommodations"),
                          ("transportResults", jsGet res "findTransportation"),
                          ("activitiesResults", jsGet res "planActivities"),
                          ("diningResults", jsGet res "planDining"),
                          ("budgetSummary", jsGet res "createBudget"),
                          ("itineraryResults", jsGet res "createItinerary")])⟩]

/-- Execution of the step sequence: a created agent either is absent from
the agents table, in which case the program logs and stores the error
sentinel and continues with the next step, or is present and its run either
yields a value, stored under the job key, or raises; no step is wrapped in
its own try, so a raise propagates out of the whole sequence at once. -/
def runSteps (agents : String → Option (String → Except String JsValue)) :
    List WStep → List (String × JsValue) → Except String (List (String × JsValue))
  | [], res => Except.ok res
  | st :: rest, res =>
      match agents st.agentId with
      | none => runSteps agents rest (res ++ [(st.jobKey, agentNotFoundSentinel)])
      | some run =>
          match run (st.mkInput res) with
          | Except.ok v => runSteps agents rest (res ++ [(st.jobKey, v)])
          | Except.error e => Except.error e

/-- The tail of the second program: a completed step sequence is rendered
and written; a raise reaches the outer catch, which logs and writes no
report file. -/
def vp9bMain (agents : String → Option (String → Except String JsValue))
    (brief : JsValue) (workflowNames : List String) :
    Option String × List String :=
  match runSteps agents (vp9bSteps brief) [] with
  | Except.ok results => (some (vp9HtmlReport workflowNames results), [])
  | Except.error e => (none, ["Error during workflow execution: " ++ e])

/-- The agents table of the C5 counterexample: the goalPlanner agent exists
and its run raises an AgentError. -/
def c5ThrowAgents : String → Option (String → Except String JsValue) :=
  fun id => if id = "goalPlanner" then
      some (fun _ => Except.error "AgentError: provider failure")
    else none

/-- Claim C5 counterexample: when the planGoals agent run raises, nothing
catches it per job.  The whole step sequence stops with the error — no
sentinel is substituted for planGoals, none of the nine later jobs run, and
the outer catch leaves the report unwritten — refuting the claim that a
raising agent call is caught and replaced by a sentinel with execution
continuing. -/
theorem c5_counterexample :
    runSteps c5ThrowAgents (vp9bSteps (JsValue.obj [])) [] =
      Except.error "AgentError: provider failure" ∧
    (vp9bMain c5ThrowAgents (JsValue.obj []) vp8JobNames).1 = none := by
  exact ⟨rfl, rfl⟩

/-- Claim C5 as amended: the sentinel substitution happens exactly when the
agent is absent from the loaded configuration — then the job records the
error sentinel and the following jobs continue — while a raising agent run
propagates out of the unprotected step sequence, aborting all remaining jobs
and reaching the outer catch; with every agent absent, all ten jobs complete
with sentinels. -/
theorem c5_amended :
    (∀ agents (st : WStep) rest res, agents st.agentId = none →
        runSteps agents (st :: rest) res =
          runSteps agents rest (res ++ [(st.jobKey, agentNotFoundSentinel)])) ∧
    (∀ agents (st : WStep) rest res run e, agents st.agentId = some run →
        run (st.mkInput res) = Except.error e →
        runSteps agents (st :: rest) res = Except.error e) ∧
    runSteps (fun _ => none) (vp9bSteps (JsValue.obj [])) [] =
      Except.ok (vp8JobNames.map fun n => (n, agentNotFoundSentinel)) := by
  refine ⟨?_, ?_, rfl⟩
  · intro agents st rest res hag
    simp [runSteps, hag]
  · intro agents st rest res run e hag herr
    simp [runSteps, hag, herr]

/-- Witness for the amended claim C5: a single absent-agent step records the
sentinel and hands the extended results on. -/
theorem c5_amended_witness :
    runSteps (fun _ => none)
        [⟨"planGoals", "goalPlanner", fun _ => jscV (JsValue.obj [])⟩] [] =
      runSteps (fun _ => none) [] ([] ++ [("planGoals", agentNotFoundSentinel)]) :=
  c5_amended.1 (fun _ => none) ⟨"planGoals", "goalPlanner", fun _ => jscV (JsValue.obj [])⟩
    [] [] rfl

/-- A thrown JavaScript error as the outer catch of the first program of
src/vp9.js sees it: its message, and the provider payload error.response.data
when there is one. -/
structure JsErr where
  message : String
  responseData : Option String

/-- The loaded configuration as far as the first program of src/vp9.js
consults it: which brief identifiers and team names exist, and the workflow
name list of the vacation team. -/
structure AgencyCfg where
  briefNames : List String
  teamNames : List String
  workflow : List String

/-- The environment of one run of the first program: the credential read at
start, the outcome of loading the configuration file, and the outcome the
external team.run call would produce. -/
structure MainEnv where
  apiKey : Option String
  configLoad : Except JsErr AgencyCfg
  teamRun : Except JsErr (List (String × JsValue))

/-- The observable outcome of a run: the report file content if one was
written, whether the workflow execution stage was reached, and the console
lines of the catch handler or of the result display. -/
structure RunOutcome where
  written : Option String
  ranWorkflow : Bool
  console : List String

/-- The brief identifier the first program looks up. -/
def briefId : String := "st-pete-clearwater-trip-001"

/-- The console lines of the outer catch handler: the error is always
logged, and a nested provider-error payload is logged after it when
present. -/
def catchLines (e : JsErr) : List String :=
  ("Error during workflow execution: " ++ e.message) ::
    (match e.responseData with
     | some d => ["API Error Details: " ++ d]
     | none => [])

/-- The first program of src/vp9.js, stage by stage in source order: the
credential check throws before anything else; the configuration load may
throw; the brief and team existence checks throw before any job executes;
only then does the team run, and only a completed run reaches the render
loop and the file write.  Every throw lands in the single outer catch, which
logs and writes nothing. -/
def vp9Main (env : MainEnv) : RunOutcome :=
  match env.apiKey with
  | none => ⟨none, false,
      catchLines ⟨"GEMINI_API_KEY environment variable is not set", none⟩⟩
  | some _ =>
    match env.configLoad with
    | Except.error e => ⟨none, false, catchLines e⟩
    | Except.ok agency =>
      if briefId ∈ agency.briefNames then
        if "vacationTeam" ∈ agency.teamNames then
          match env.teamRun with
          | Except.error e => ⟨none, true, catchLines e⟩
          | Except.ok results =>
              ⟨some (vp9HtmlReport agency.workflow results), true,
               consoleTranscript agency.workflow results⟩
        else ⟨none, false,
          catchLines ⟨"Team with name \"vacationTeam\" not found in vp.json", none⟩⟩
      else ⟨none, false,
        catchLines ⟨"Brief with ID \"st-pete-clearwater-trip-001\" not found in vp.json", none⟩⟩

/-- The run aborted on the given error before writing anything: no report
file, the workflow stage never reached, the error message logged, and any
nested provider payload logged with it. -/
def abortedBeforeJobs (out : RunOutcome) (e : JsErr) : Prop :=
  out.written = none ∧ out.ranWorkflow = false ∧
  ("Error during workflow execution: " ++ e.message) ∈ out.console ∧
  (∀ d, e.responseData = some d → ("API Error Details: " ++ d) ∈ out.console)

/-- Claim C8: every fatal configuration error — missing credential, failed
configuration load, missing brief identifier, missing team — aborts the run
before any job executes, logs the error with any nested provider payload,
and produces no report file, partial or otherwise. -/
theorem c8_fatal_config :
    (∀ env : MainEnv, env.apiKey = none →
        abortedBeforeJobs (vp9Main env)
          ⟨"GEMINI_API_KEY environment variable is not set", none⟩) ∧
    (∀ (env : MainEnv) k e, env.apiKey = some k → env.configLoad = Except.error e →
        abortedBeforeJobs (vp9Main env) e) ∧
    (∀ (env : MainEnv) k agency, env.apiKey = some k →
        env.configLoad = Except.ok agency → briefId ∉ agency.briefNames →
        abortedBeforeJobs (vp9Main env)
          ⟨"Brief with ID \"st-pete-clearwater-trip-001\" not found in vp.json", none⟩) ∧
    (∀ (env : MainEnv) k agency, env.apiKey = some k →
        env.configLoad = Except.ok agency → briefId ∈ agency.briefNames →
        "vacationTeam" ∉ agency.teamNames →
        abortedBeforeJobs (vp9Main env)
          ⟨"Team with name \"vacationTeam\" not found in vp.json", none⟩) := by
  refine ⟨?_, ?_, ?_, ?_⟩
  · intro env h
    unfold vp9Main
    rw [h]
    exact ⟨rfl, rfl, by simp [catchLines], by simp⟩
  · intro env k e hk hc
    unfold vp9Main
    rw [hk, hc]
    refine ⟨rfl, rfl, by simp [catchLines], ?_⟩
    intro d hd
    simp [catchLines, hd]
  · intro env k agency hk hc hb
    unfold vp9Main
    rw [hk, hc]
    dsimp only
    rw [if_neg hb]
    exact ⟨rfl, rfl, by simp [catchLines], by simp⟩
  · intro env k agency hk hc hb ht
    unfold vp9Main
    rw [hk, hc]
    dsimp only
    rw [if_pos hb, if_neg ht]
    exact ⟨rfl, rfl, by simp [catchLines], by simp⟩

/-- Witness for claim C8: a run with no credential writes nothing, reaches
no job, and logs the credential error. -/
theorem c8_fatal_config_witness :
    abortedBeforeJobs
      (vp9Main ⟨none, Except.ok ⟨[briefId], ["vacationTeam"], vp8JobNames⟩, Except.ok []⟩)
      ⟨"GEMINI_API_KEY environment variable is not set", none⟩ :=
  c8_fatal_config.1 ⟨none, Except.ok ⟨[briefId], ["vacationTeam"], vp8JobNames⟩, Except.ok []⟩ rfl

/-- Whether the character is an ASCII lowercase letter. -/
def isLowerAZ (c : Char) : Bool := decide ('a' ≤ c) && decide (c ≤ 'z')

/-- The title transform as claim C4 words it, a second definition written
from the specification text for comparison: one space inserted before every
run of consecutive uppercase letters that follows a lowercase letter or the
start of the identifier, then trimmed. -/
def titleizeClaimedGo : Option Char → List Char → List Char
  | _, [] => []
  | prev, c :: rest =>
      (if isUpperAZ c && (match prev with | none => true | some p => isLowerAZ p)
       then [' ', c] else [c]) ++ titleizeClaimedGo (some c) rest

/-- The claimed run-based titleize, assembled from the comparison pass. -/
def titleizeClaimed (s : String) : String := jsTrim ⟨titleizeClaimedGo none s.data⟩

/-- Claim C4 counterexample: the render loops insert a space before every
single uppercase letter, not before every run.  On planABC the code yields
plan A B C while the claimed run-based transform yields plan ABC, so the
claimed description differs from the program. -/
theorem c4_counterexample :
    titleize "planABC" = "plan A B C" ∧
    titleizeClaimed "planABC" = "plan ABC" ∧
    ("plan A B C" : String) ≠ "plan ABC" := by
  refine ⟨rfl, rfl, by decide⟩

theorem filter_spaceCapsList (l : List Char) :
    (spaceCapsList l).filter (fun c => c != ' ') = l.filter (fun c => c != ' ') := by
  induction l with
  | nil => rfl
  | cons c rest ih =>
    by_cases hc : isUpperAZ c = true
    · simp [spaceCapsList, hc, List.filter_cons, ih]
    · simp only [Bool.not_eq_true] at hc
      simp [spaceCapsList, hc, List.filter_cons, ih]

theorem mem_spaceCapsList {c : Char} {l : List Char} (h : c ∈ spaceCapsList l) :
    c = ' ' ∨ c ∈ l := by
  induction l with
  | nil => simp [spaceCapsList] at h
  | cons d rest ih =>
    unfold spaceCapsList at h
    by_cases hd : isUpperAZ d = true
    · rw [if_pos hd] at h
      simp only [List.mem_cons] at h
      rcases h with h | h | h
      · exact Or.inl h
      · exact Or.inr (by simp [h])
      · rcases ih h with h' | h'
        · exact Or.inl h'
        · exact Or.inr (by simp [h'])
    · rw [if_neg hd] at h
      simp only [List.mem_cons] at h
      rcases h with h | h
      · exact Or.inr (by simp [h])
      · rcases ih h with h' | h'
        · exact Or.inl h'
        · exact Or.inr (by simp [h'])

theorem filter_dropWhile {p q : Char → Bool} {l : List Char}
    (h : ∀ c ∈ l, q c = true → p c = false) :
    (l.dropWhile q).filter p = l.filter p := by
  induction l with
  | nil => rfl
  | cons c rest ih =>
    by_cases hq : q c = true
    · rw [List.dropWhile_cons_of_pos hq]
      rw [ih (fun d hd => h d (by simp [hd]))]
      have hp : p c = false := h c (by simp) hq
      simp [List.filter_cons, hp]
    · rw [List.dropWhile_cons_of_neg (by simpa using hq)]

theorem filter_jsTrim {p : Char → Bool} {s : String}
    (h : ∀ c ∈ s.data, isJsWhite c = true → p c = false) :
    (jsTrim s).data.filter p = s.data.filter p := by
  unfold jsTrim
  have hA : ∀ c ∈ s.data.dropWhile isJsWhite, c ∈ s.data :=
    fun c hc => (List.dropWhile_sublist isJsWhite).mem hc
  rw [List.filter_reverse]
  rw [filter_dropWhile (fun c hc hw => h c (hA c (by simpa using hc)) hw)]
  rw [← List.filter_reverse, List.reverse_reverse]
  exact filter_dropWhile h

/-- The remaining-characters half of the amended claim C4: on a job name
free of whitespace, the transform only inserts spaces — removing all spaces
from the title gives back the original characters in order. -/
theorem titleize_nonspace_chars (s : String) (h : ∀ c ∈ s.data, isJsWhite c = false) :
    (titleize s).data.filter (fun c => c != ' ') = s.data := by
  unfold titleize
  have hmemcond : ∀ c ∈ (spaceBeforeCaps s).data, isJsWhite c = true → (c != ' ') = false := by
    intro c hc hw
    rcases mem_spaceCapsList (by simpa [spaceBeforeCaps] using hc) with h' | h'
    · simp [h']
    · rw [h c h'] at hw
      exact absurd hw (by simp)
  rw [filter_jsTrim hmemcond]
  have : (spaceBeforeCaps s).data = spaceCapsList s.data := rfl
  rw [this, filter_spaceCapsList]
  apply List.filter_eq_self.mpr
  intro c hc
  have hw := h c hc
  simp only [bne_iff_ne, ne_eq, decide_not]
  intro he
  subst he
  simp [isJsWhite] at hw

theorem head_spaceCapsList_not_upper {l : List Char} {h : Char} {t : List Char}
    (he : spaceCapsList l = h :: t) : isUpperAZ h = false := by
  cases l with
  | nil => simp [spaceCapsList] at he
  | cons c rest =>
    unfold spaceCapsList at he
    by_cases hc : isUpperAZ c = true
    · rw [if_pos hc] at he
      cases he
      rfl
    · rw [if_neg hc] at he
      cases he
      simpa using hc

/-- The pairwise relation of the amended claim C4: every uppercase letter of
the output other than the very first character is immediately preceded by a
space. -/
def upperSpaced (a b : Char) : Prop := isUpperAZ b = true → a = ' '

theorem chain_spaceCapsList (l : List Char) : List.Chain' upperSpaced (spaceCapsList l) := by
  induction l with
  | nil => simp [spaceCapsList]
  | cons c rest ih =>
    have hhead : ∀ h ∈ (spaceCapsList rest).head?, upperSpaced c h := by
      intro h hh
      cases he : spaceCapsList rest with
      | nil => simp [he] at hh
      | cons x t =>
        rw [he] at hh
        simp only [List.head?_cons, Option.mem_def, Option.some.injEq] at hh
        subst hh
        intro hup
        rw [head_spaceCapsList_not_upper he] at hup
        exact absurd hup (by simp)
    unfold spaceCapsList
    by_cases hc : isUpperAZ c = true
    · rw [if_pos hc]
      refine List.chain'_cons'.mpr ⟨?_, List.chain'_cons'.mpr ⟨hhead, ih⟩⟩
      intro h hh
      simp at hh
      subst hh
      intro _
      rfl
    · rw [if_neg hc]
      exact List.chain'_cons'.mpr ⟨hhead, ih⟩

theorem jsTrim_data_sub (l : List Char) :
    ((l.dropWhile isJsWhite).reverse.dropWhile isJsWhite).reverse <:+: l := by
  have h1 : (l.dropWhile isJsWhite).reverse.dropWhile isJsWhite <:+
      (l.dropWhile isJsWhite).reverse := List.dropWhile_suffix _
  have h2 : ((l.dropWhile isJsWhite).reverse.dropWhile isJsWhite).reverse <+:
      l.dropWhile isJsWhite := by
    obtain ⟨b, hb⟩ := h1
    refine ⟨b.reverse, ?_⟩
    have := congrArg List.reverse hb
    simpa using this
  have h3 : l.dropWhile isJsWhite <:+ l := List.dropWhile_suffix _
  exact h2.isInfix.trans h3.isInfix

theorem chain_titleize (s : String) : List.Chain' upperSpaced (titleize s).data := by
  have e : (titleize s).data =
      (((spaceBeforeCaps s).data.dropWhile isJsWhite).reverse.dropWhile isJsWhite).reverse := rfl
  rw [e]
  have hinf := jsTrim_data_sub (spaceBeforeCaps s).data
  exact List.Chain'.infix (chain_spaceCapsList s.data) (by simpa [spaceBeforeCaps] using hinf)

/-- Claim C4 as amended: the transform inserts a space before every single
uppercase letter (each letter of a consecutive uppercase run separately) and
then trims, so planGoals gives plan Goals, createBudget gives create Budget,
x gives x, and planABC gives plan A B C; on whitespace-free input the
non-space characters are exactly the input in order, and every uppercase
letter in the title, except at the very start, directly follows a space. -/
theorem c4_amended :
    titleize "planGoals" = "plan Goals" ∧
    titleize "createBudget" = "create Budget" ∧
    titleize "x" = "x" ∧
    titleize "planABC" = "plan A B C" ∧
    (∀ s : String, (∀ c ∈ s.data, isJsWhite c = false) →
      (titleize s).data.filter (fun c => c != ' ') = s.data) ∧
    (∀ s : String, List.Chain' upperSpaced (titleize s).data) :=
  ⟨rfl, rfl, rfl, rfl, titleize_nonspace_chars, chain_titleize⟩

/-- Witness for the amended claim C4 at the concrete name suggestDestinations,
discharging the whitespace-free hypothesis. -/
theorem c4_amended_witness :
    (∀ c ∈ ("suggestDestinations" : String).data, isJsWhite c = false) ∧
    (titleize "suggestDestinations").data.filter (fun c => c != ' ') =
      ("suggestDestinations" : String).data :=
  ⟨by decide, c4_amended.2.2.2.2.1 "suggestDestinations" (by decide)⟩

/-- Claim C6: stringifyResult is the identity on values that are already
text, hence idempotent on them: a string result is interpolated into the
report body unchanged. -/
theorem c6_stringify_identity :
    ∀ s : String, stringifyResult (JsValue.str s) = s ∧
      stringifyResult (JsValue.str (stringifyResult (JsValue.str s))) =
        stringifyResult (JsValue.str s) := by
  intro s
  constructor <;> rfl

theorem join_cons (a : String) (l : List String) :
    String.join (a :: l) = a ++ String.join l := by
  apply String.ext
  simp [String.join_eq]

/-- The string contains no tag-opening character, so interpolating it into
the markup can introduce no tag. -/
@[reducible] def tagFree (s : String) : Prop := ∀ c ∈ s.data, ¬ c = '<'

theorem occurs_successHtml {q : List Char} {n : String} {v : JsValue} (rest : List Char)
    (hH : spanRisk ('<' :: q) sectionHeadOpen.data = false)
    (hS2 : spanRisk ('<' :: q) sectionSpanOpen.data = false)
    (hS3 : spanRisk ('<' :: q) sectionSpanClose.data = false)
    (hS4 : spanRisk ('<' :: q) sectionPreClose.data = false)
    (ht : tagFree (titleize n)) (hl : tagFree (lengthAnnStr v))
    (hb : tagFree (stringifyResult v)) :
    occurs ('<' :: q) ((successHtml n v).data ++ rest) =
      (occurs ('<' :: q) sectionHeadOpen.data + occurs ('<' :: q) sectionSpanOpen.data +
       occurs ('<' :: q) sectionSpanClose.data + occurs ('<' :: q) sectionPreClose.data) +
      occurs ('<' :: q) rest := by
  have hdata : (successHtml n v).data ++ rest =
      sectionHeadOpen.data ++ ((titleize n).data ++ (sectionSpanOpen.data ++
        ((lengthAnnStr v).data ++ (sectionSpanClose.data ++
        ((stringifyResult v).data ++ (sectionPreClose.data ++ rest)))))) := by
    simp [successHtml]
  rw [hdata, occurs_append_of_noSpan _ hH, occurs_clean_append _ _ ht,
    occurs_append_of_noSpan _ hS2, occurs_clean_append _ _ hl,
    occurs_append_of_noSpan _ hS3, occurs_clean_append _ _ hb,
    occurs_append_of_noSpan _ hS4]
  omega

theorem occurs_warningHtml {q : List Char} {n : String} (rest : List Char)
    (hH : spanRisk ('<' :: q) sectionHeadOpen.data = false)
    (hW : spanRisk ('<' :: q) warningTail.data = false)
    (ht : tagFree (titleize n)) :
    occurs ('<' :: q) ((warningHtml n).data ++ rest) =
      (occurs ('<' :: q) sectionHeadOpen.data + occurs ('<' :: q) warningTail.data) +
      occurs ('<' :: q) rest := by
  have hdata : (warningHtml n).data ++ rest =
      sectionHeadOpen.data ++ ((titleize n).data ++ (warningTail.data ++ rest)) := by
    simp [warningHtml]
  rw [hdata, occurs_append_of_noSpan _ hH, occurs_clean_append _ _ ht,
    occurs_append_of_noSpan _ hW]
  omega

theorem occurs_sectionsHtml {q : List Char} (names : List String)
    (results : List (String × JsValue)) (rest : List Char) (cS cW : Nat)
    (hH : spanRisk ('<' :: q) sectionHeadOpen.data = false)
    (hS2 : spanRisk ('<' :: q) sectionSpanOpen.data = false)
    (hS3 : spanRisk ('<' :: q) sectionSpanClose.data = false)
    (hS4 : spanRisk ('<' :: q) sectionPreClose.data = false)
    (hW : spanRisk ('<' :: q) warningTail.data = false)
    (hcS : occurs ('<' :: q) sectionHeadOpen.data + occurs ('<' :: q) sectionSpanOpen.data +
           occurs ('<' :: q) sectionSpanClose.data + occurs ('<' :: q) sectionPreClose.data = cS)
    (hcW : occurs ('<' :: q) sectionHeadOpen.data + occurs ('<' :: q) warningTail.data = cW)
    (ht : ∀ n ∈ names, tagFree (titleize n))
    (hv : ∀ n ∈ names, ∀ v, jsGet results n = some v → truthy v = true →
        tagFree (stringifyResult v) ∧ tagFree (lengthAnnStr v)) :
    occurs ('<' :: q) ((sectionsHtml names results).data ++ rest) =
      (names.map fun n => if entryTruthy results n then cS else cW).sum +
        occurs ('<' :: q) rest := by
  induction names with
  | nil =>
    have e : (sectionsHtml [] results).data = [] := rfl
    rw [e]
    simp
  | cons n ns ih =>
    have hsec : sectionsHtml (n :: ns) results =
        sectionHtmlFor results n ++ sectionsHtml ns results := by
      unfold sectionsHtml
      rw [List.map_cons, join_cons]
    have hdata : (sectionsHtml (n :: ns) results).data ++ rest =
        (sectionHtmlFor results n).data ++ ((sectionsHtml ns results).data ++ rest) := by
      rw [hsec]
      simp
    rw [hdata]
    have ihr := ih (fun m hm => ht m (by simp [hm]))
      (fun m hm v hgv htv => hv m (by simp [hm]) v hgv htv)
    rcases hget : jsGet results n with _ | v
    · have hw : sectionHtmlFor results n = warningHtml n := by
        unfold sectionHtmlFor
        rw [hget]
      have hE : entryTruthy results n = false := by
        unfold entryTruthy
        rw [hget]
      rw [hw, occurs_warningHtml _ hH hW (ht n (by simp)), ihr, hcW]
      simp only [List.map_cons, List.sum_cons, hE]
      simp only [Bool.false_eq_true, if_false]
      omega
    · by_cases htr : truthy v = true
      · have hs : sectionHtmlFor results n = successHtml n v := by
          unfold sectionHtmlFor
          rw [hget]
          simp [htr]
        have hE : entryTruthy results n = true := by
          unfold entryTruthy
          rw [hget]
          exact htr
        obtain ⟨hb, hl⟩ := hv n (by simp) v hget htr
        rw [hs, occurs_successHtml _ hH hS2 hS3 hS4 (ht n (by simp)) hl hb, ihr, hcS]
        simp only [List.map_cons, List.sum_cons, hE, if_pos]
        omega
      · have htr' : truthy v = false := by
          cases h : truthy v
          · rfl
          · exact absurd h htr
        have hw : sectionHtmlFor results n = warningHtml n := by
          unfold sectionHtmlFor
          rw [hget]
          simp [htr']
        have hE : entryTruthy results n = false := by
          unfold entryTruthy
          rw [hget]
          exact htr'
        rw [hw, occurs_warningHtml _ hH hW (ht n (by simp)), ihr, hcW]
        simp only [List.map_cons, List.sum_cons, hE]
        simp only [Bool.false_eq_true, if_false]
        omega

theorem occurs_reportDoc {q : List Char} (names : List String)
    (results : List (String × JsValue)) (footer : String) (a b f cS cW : Nat)
    (hA : spanRisk ('<' :: q) preludeFixedA.data = false)
    (hB : spanRisk ('<' :: q) preludeFixedB.data = false)
    (hAv : occurs ('<' :: q) preludeFixedA.data = a)
    (hBv : occurs ('<' :: q) preludeFixedB.data = b)
    (hFv : occurs ('<' :: q) footer.data = f)
    (hH : spanRisk ('<' :: q) sectionHeadOpen.data = false)
    (hS2 : spanRisk ('<' :: q) sectionSpanOpen.data = false)
    (hS3 : spanRisk ('<' :: q) sectionSpanClose.data = false)
    (hS4 : spanRisk ('<' :: q) sectionPreClose.data = false)
    (hW : spanRisk ('<' :: q) warningTail.data = false)
    (hcS : occurs ('<' :: q) sectionHeadOpen.data + occurs ('<' :: q) sectionSpanOpen.data +
           occurs ('<' :: q) sectionSpanClose.data + occurs ('<' :: q) sectionPreClose.data = cS)
    (hcW : occurs ('<' :: q) sectionHeadOpen.data + occurs ('<' :: q) warningTail.data = cW)
    (hkeys : tagFree (joinSep ", " (keysOf results)))
    (ht : ∀ n ∈ names, tagFree (titleize n))
    (hv : ∀ n ∈ names, ∀ v, jsGet results n = some v → truthy v = true →
        tagFree (stringifyResult v) ∧ tagFree (lengthAnnStr v)) :
    occurs ('<' :: q) (htmlPrelude results ++ sectionsHtml names results ++ footer).data =
      a + b + f + (names.map fun n => if entryTruthy results n then cS else cW).sum := by
  have hdoc : (htmlPrelude results ++ sectionsHtml names results ++ footer).data =
      preludeFixedA.data ++ ((joinSep ", " (keysOf results)).data ++
        (preludeFixedB.data ++ ((sectionsHtml names results).data ++ footer.data))) := by
    simp [htmlPrelude]
  rw [hdoc, occurs_append_of_noSpan _ hA, occurs_clean_append _ _ hkeys,
    occurs_append_of_noSpan _ hB,
    occurs_sectionsHtml names results footer.data cS cW hH hS2 hS3 hS4 hW hcS hcW ht hv,
    hAv, hBv, hFv]
  omega

/-- The number of workflow names whose results entry is truthy: the number
of success sections of the report. -/
def countTruthy (names : List String) (results : List (String × JsValue)) : Nat :=
  names.countP fun n => entryTruthy results n

theorem sum_ite_one_zero (E : String → Bool) (names : List String) :
    (names.map fun n => if E n then 1 else 0).sum = names.countP E := by
  induction names with
  | nil => rfl
  | cons n ns ih =>
    cases hE : E n
    all_goals simp [List.countP_cons, hE, ih]
    all_goals omega

theorem sum_ite_same (E : String → Bool) (names : List String) (c : Nat) :
    (names.map fun n => if E n then c else c).sum = names.length * c := by
  induction names with
  | nil => simp
  | cons n ns ih =>
    cases hE : E n
    all_goals simp [hE, ih]
    all_goals ring

/-- The results table of the C9 counterexample: a result whose text contains
a closing pre tag. -/
def c9Results : List (String × JsValue) := [("planGoals", JsValue.str "</pre>")]

/-- Claim C9 counterexample: result bodies are interpolated into the
template with no HTML escaping, so markup-significant characters in a result
break the document.  With the single result planGoals = "</pre>", the
rendered document contains one pre opening tag but two pre closing tags; in
a well-formed HTML document these counts agree, so the output is not a
well-formed document, refuting the claim for this results mapping. -/
theorem c9_counterexample :
    stringifyResult (JsValue.str "</pre>") = "</pre>" ∧
    occursStr "<pre>" (vp9HtmlReport ["planGoals"] c9Results) = 1 ∧
    occursStr "</pre>" (vp9HtmlReport ["planGoals"] c9Results) = 2 := by
  refine ⟨rfl, by decide, by decide⟩

/-- Claim C9 as amended: no escaping is applied to the interpolated parts,
so well-formedness holds only when they bring no markup of their own.  When
every interpolated string (the joined key list, the titleized names, and the
stringified bodies and length annotations of truthy results) contains no
tag-opening character, the vp9 report carries exactly one h2 opening and one
h2 closing tag per workflow name, matching pre opening and closing tag
counts (one per truthy entry), and no div tag at all; the vp8 variant
additionally always appends one unmatched closing div tag, so its output is
never a well-formed document. -/
theorem c9_amended :
    (∀ names results,
      tagFree (joinSep ", " (keysOf results)) →
      (∀ n ∈ names, tagFree (titleize n)) →
      (∀ n ∈ names, ∀ v, jsGet results n = some v → truthy v = true →
          tagFree (stringifyResult v) ∧ tagFree (lengthAnnStr v)) →
      occursStr "<h2>" (vp9HtmlReport names results) = names.length ∧
      occursStr "</h2>" (vp9HtmlReport names results) = names.length ∧
      occursStr "<pre>" (vp9HtmlReport names results) = countTruthy names results ∧
      occursStr "</pre>" (vp9HtmlReport names results) = countTruthy names results ∧
      occursStr "<div" (vp9HtmlReport names results) = 0 ∧
      occursStr "</div>" (vp9HtmlReport names results) = 0) ∧
    (∀ results,
      tagFree (joinSep ", " (keysOf results)) →
      (∀ n ∈ vp8JobNames, ∀ v, jsGet results n = some v → truthy v = true →
          tagFree (stringifyResult v) ∧ tagFree (lengthAnnStr v)) →
      occursStr "<div" (vp8HtmlReport results) = 0 ∧
      occursStr "</div>" (vp8HtmlReport results) = 1) := by
  constructor
  · intro names results hkeys ht hv
    have hdoc : vp9HtmlReport names results =
        htmlPrelude results ++ sectionsHtml names results ++ vp9Footer := rfl
    refine ⟨?_, ?_, ?_, ?_, ?_, ?_⟩
    · show occurs ('<' :: ['h', '2', '>']) (vp9HtmlReport names results).data = _
      rw [hdoc, occurs_reportDoc names results vp9Footer 0 0 0 1 1 (by decide) (by decide)
        (by decide) (by decide) (by decide) (by decide) (by decide) (by decide) (by decide)
        (by decide) (by decide) (by decide) hkeys ht hv, sum_ite_same]
      omega
    · show occurs ('<' :: ['/', 'h', '2', '>']) (vp9HtmlReport names results).data = _
      rw [hdoc, occurs_reportDoc names results vp9Footer 0 0 0 1 1 (by decide) (by decide)
        (by decide) (by decide) (by decide) (by decide) (by decide) (by decide) (by decide)
        (by decide) (by decide) (by decide) hkeys ht hv, sum_ite_same]
      omega
    · show occurs ('<' :: ['p', 'r', 'e', '>']) (vp9HtmlReport names results).data = _
      rw [hdoc, occurs_reportDoc names results vp9Footer 0 0 0 1 0 (by decide) (by decide)
        (by decide) (by decide) (by decide) (by decide) (by decide) (by decide) (by decide)
        (by decide) (by decide) (by decide) hkeys ht hv, sum_ite_one_zero]
      simp [countTruthy]
    · show occurs ('<' :: ['/', 'p', 'r', 'e', '>']) (vp9HtmlReport names results).data = _
      rw [hdoc, occurs_reportDoc names results vp9Footer 0 0 0 1 0 (by decide) (by decide)
        (by decide) (by decide) (by decide) (by decide) (by decide) (by decide) (by decide)
        (by decide) (by decide) (by decide) hkeys ht hv, sum_ite_one_zero]
      simp [countTruthy]
    · show occurs ('<' :: ['d', 'i', 'v']) (vp9HtmlReport names results).data = _
      rw [hdoc, occurs_reportDoc names results vp9Footer 0 0 0 0 0 (by decide) (by decide)
        (by decide) (by decide) (by decide) (by decide) (by decide) (by decide) (by decide)
        (by decide) (by decide) (by decide) hkeys ht hv, sum_ite_same]
      omega
    · show occurs ('<' :: ['/', 'd', 'i', 'v', '>']) (vp9HtmlReport names results).data = _
      rw [hdoc, occurs_reportDoc names results vp9Footer 0 0 0 0 0 (by decide) (by decide)
        (by decide) (by decide) (by decide) (by decide) (by decide) (by decide) (by decide)
        (by decide) (by decide) (by decide) hkeys ht hv, sum_ite_same]
      omega
  · intro results hkeys hv
    have hdoc : vp8HtmlReport results =
        htmlPrelude results ++ sectionsHtml vp8JobNames results ++ vp8Footer := rfl
    have ht8 : ∀ n ∈ vp8JobNames, tagFree (titleize n) := by decide
    constructor
    · show occurs ('<' :: ['d', 'i', 'v']) (vp8HtmlReport results).data = _
      rw [hdoc, occurs_reportDoc vp8JobNames results vp8Footer 0 0 0 0 0 (by decide) (by decide)
        (by decide) (by decide) (by decide) (by decide) (by decide) (by decide) (by decide)
        (by decide) (by decide) (by decide) hkeys ht8 hv, sum_ite_same]
      omega
    · show occurs ('<' :: ['/', 'd', 'i', 'v', '>']) (vp8HtmlReport results).data = _
      rw [hdoc, occurs_reportDoc vp8JobNames results vp8Footer 0 0 1 0 0 (by decide) (by decide)
        (by decide) (by decide) (by decide) (by decide) (by decide) (by decide) (by decide)
        (by decide) (by decide) (by decide) hkeys ht8 hv, sum_ite_same]
      omega

/-- Witness for the amended claim C9 at a concrete clean results mapping:
one workflow name with one truthy plain-text result gives one h2 pair, one
pre pair, and no div. -/
theorem c9_amended_witness :
    occursStr "<h2>" (vp9HtmlReport ["planGoals"] [("planGoals", JsValue.str "hello")]) =
      (["planGoals"] : List String).length ∧
    occursStr "</h2>" (vp9HtmlReport ["planGoals"] [("planGoals", JsValue.str "hello")]) =
      (["planGoals"] : List String).length ∧
    occursStr "<pre>" (vp9HtmlReport ["planGoals"] [("planGoals", JsValue.str "hello")]) =
      countTruthy ["planGoals"] [("planGoals", JsValue.str "hello")] ∧
    occursStr "</pre>" (vp9HtmlReport ["planGoals"] [("planGoals", JsValue.str "hello")]) =
      countTruthy ["planGoals"] [("planGoals", JsValue.str "hello")] ∧
    occursStr "<div" (vp9HtmlReport ["planGoals"] [("planGoals", JsValue.str "hello")]) = 0 ∧
    occursStr "</div>" (vp9HtmlReport ["planGoals"] [("planGoals", JsValue.str "hello")]) = 0 :=
  c9_amended.1 ["planGoals"] [("planGoals", JsValue.str "hello")]
    (by decide) (by decide)
    (by
      intro n hn v hgv htv
      have hn' : n = "planGoals" := by
        simpa using hn
      subst hn'
      have h2 : some (JsValue.str "hello") = some v := hgv
      cases h2
      exact ⟨by decide, by decide⟩)

/-- JSON insignificant whitespace: space, tab, line feed, carriage return. -/
def isJsonWs (c : Char) : Bool :=
  decide (c.toNat = 32) || decide (c.toNat = 9) || decide (c.toNat = 10) || decide (c.toNat = 13)

/-- Skip insignificant whitespace before a token. -/
def skipWs (s : List Char) : List Char := s.dropWhile isJsonWs

/-- ASCII decimal digit test. -/
def isDigit (c : Char) : Bool := decide (48 ≤ c.toNat) && decide (c.toNat ≤ 57)

/-- The value of a hexadecimal digit character, if it is one. -/
def hexVal (c : Char) : Option Nat :=
  if 48 ≤ c.toNat ∧ c.toNat ≤ 57 then some (c.toNat - 48)
  else if 97 ≤ c.toNat ∧ c.toNat ≤ 102 then some (c.toNat - 87)
  else if 65 ≤ c.toNat ∧ c.toNat ≤ 70 then some (c.toNat - 55)
  else none

/-- Consume a run of decimal digits, extending the accumulated value. -/
def parseDigits : List Char → Nat → Nat × List Char
  | [], acc => (acc, [])
  | c :: rest, acc =>
      if isDigit c then parseDigits rest (acc * 10 + (c.toNat - 48)) else (acc, c :: rest)

/-- Parse the body of a JSON string literal after its opening quote, up to
and including the closing quote: plain characters, the short escapes, and
four-digit \u escapes denoting scalar values; raw control characters and
lone surrogate escapes are rejected. -/
def parseStrBody : List Char → Option (List Char × List Char)
  | [] => none
  | c :: rest =>
      if c = '"' then some ([], rest)
      else if c = '\\' then
        match rest with
        | [] => none
        | e :: r =>
            if e = '"' then (parseStrBody r).map fun p => ('"' :: p.1, p.2)
            else if e = '\\' then (parseStrBody r).map fun p => ('\\' :: p.1, p.2)
            else if e = '/' then (parseStrBody r).map fun p => ('/' :: p.1, p.2)
            else if e = 'b' then (parseStrBody r).map fun p => ('\x08' :: p.1, p.2)
            else if e = 'f' then (parseStrBody r).map fun p => ('\x0c' :: p.1, p.2)
            else if e = 'n' then (parseStrBody r).map fun p => ('\x0a' :: p.1, p.2)
            else if e = 'r' then (parseStrBody r).map fun p => ('\x0d' :: p.1, p.2)
            else if e = 't' then (parseStrBody r).map fun p => ('\x09' :: p.1, p.2)
            else if e = 'u' then
              match r with
              | h1 :: h2 :: h3 :: h4 :: r2 =>
                  match hexVal h1, hexVal h2, hexVal h3, hexVal h4 with
                  | some a, some b, some c2, some d =>
                      let code := ((a * 16 + b) * 16 + c2) * 16 + d
                      if code < 0xd800 ∨ (0xdfff < code ∧ code < 0x110000) then
                        (parseStrBody r2).map fun p => (Char.ofNat code :: p.1, p.2)
                      else none
                  | _, _, _, _ => none
              | _ => none
            else none
      else if c.toNat < 0x20 then none
      else (parseStrBody rest).map fun p => (c :: p.1, p.2)

mutual

/-- Parse one JSON value, fuel-bounded: whitespace, then a literal, string,
number, array or object token. -/
def parseVal : Nat → List Char → Option (JsValue × List Char)
  | 0, _ => none
  | fuel + 1, s =>
      match skipWs s with
      | [] => none
      | c :: rest =>
          if c = 'n' then
            match rest with
            | 'u' :: 'l' :: 'l' :: r => some (JsValue.null, r)
            | _ => none
          else if c = 't' then
            match rest with
            | 'r' :: 'u' :: 'e' :: r => some (JsValue.boolean true, r)
            | _ => none
          else if c = 'f' then
            match rest with
            | 'a' :: 'l' :: 's' :: 'e' :: r => some (JsValue.boolean false, r)
            | _ => none
          else if c = '"' then
            (parseStrBody rest).map fun p => (JsValue.str ⟨p.1⟩, p.2)
          else if c = '[' then
            match skipWs rest with
            | [] => none
            | d :: r2 =>
                if d = ']' then some (JsValue.arr [], r2)
                else (parseItems fuel (d :: r2)).map fun p => (JsValue.arr p.1, p.2)
          else if c = '\x7b' then
            match skipWs rest with
            | [] => none
            | d :: r2 =>
                if d = '\x7d' then some (JsValue.obj [], r2)
                else (parseFields fuel (d :: r2)).map fun p => (JsValue.obj p.1, p.2)
          else if c = '-' then
            match rest with
            | [] => none
            | d :: rest2 =>
                if isDigit d then
                  let p := parseDigits rest2 (d.toNat - 48)
                  some (JsValue.num (-(p.1 : Int)), p.2)
                else none
          else if isDigit c then
            let p := parseDigits rest (c.toNat - 48)
            some (JsValue.num (p.1 : Int), p.2)
          else none

/-- Parse the nonempty item list of an array after its opening bracket and
leading whitespace, up to and including the closing bracket. -/
def parseItems : Nat → List Char → Option (List JsValue × List Char)
  | 0, _ => none
  | fuel + 1, s =>
      match parseVal fuel s with
      | none => none
      | some (v, r) =>
          match skipWs r with
          | [] => none
          | c :: r2 =>
              if c = ',' then (parseItems fuel r2).map fun p => (v :: p.1, p.2)
              else if c = ']' then some ([v], r2)
              else none

/-- Parse the nonempty member list of an object after its opening brace and
leading whitespace, up to and including the closing brace. -/
def parseFields : Nat → List Char → Option (List (String × JsValue) × List Char)
  | 0, _ => none
  | fuel + 1, s =>
      match skipWs s with
      | [] => none
      | c :: rest =>
          if c = '"' then
            match parseStrBody rest with
            | none => none
            | some (k, r) =>
                match skipWs r with
                | [] => none
                | c2 :: r2 =>
                    if c2 = ':' then
                      match parseVal fuel r2 with
                      | none => none
                      | some (v, r3) =>
                          match skipWs r3 with
                          | [] => none
                          | c3 :: r4 =>
                              if c3 = ',' then
                                (parseFields fuel r4).map fun p => ((⟨k⟩, v) :: p.1, p.2)
                              else if c3 = '\x7d' then some ([(⟨k⟩, v)], r4)
                              else none
                    else none
          else none

end

/-- JSON.parse on the modelled fragment: parse one value, requiring nothing
but whitespace after it. -/
def jsonParse (s : String) : Option JsValue :=
  match parseVal (s.length + 1) s.data with
  | some (v, rest) => if skipWs rest = [] then some v else none
  | none => none

theorem charNe {a b : Char} (h : a.toNat ≠ b.toNat) : a ≠ b :=
  fun he => h (he ▸ rfl)

theorem toNat_ofNat_valid {n : Nat} (h : n.isValidChar) : (Char.ofNat n).toNat = n := by
  rw [Char.ofNat, dif_pos h]
  simp [Char.ofNatAux, Char.toNat, UInt32.toNat, BitVec.toNat_ofNatLt]

theorem digitChar_toNat {m : Nat} (h : m < 10) : (digitChar m).toNat = 48 + m := by
  unfold digitChar
  exact toNat_ofNat_valid (Or.inl (by omega))

theorem isDigit_digitChar {m : Nat} (h : m < 10) : isDigit (digitChar m) = true := by
  simp [isDigit, digitChar_toNat h]
  omega

theorem not_isJsonWs_of_digit {c : Char} (h : isDigit c = true) : isJsonWs c = false := by
  simp [isDigit] at h
  simp [isJsonWs]
  omega

/-- All characters of the list are insignificant whitespace. -/
@[reducible] def wsList (l : List Char) : Prop := ∀ c ∈ l, isJsonWs c = true

/-- All characters of the string are insignificant whitespace. -/
@[reducible] def wsStr (s : String) : Prop := ∀ c ∈ s.data, isJsonWs c = true

theorem skipWs_append_ws {a : List Char} (s : List Char) (h : wsList a) :
    skipWs (a ++ s) = skipWs s := by
  induction a with
  | nil => rfl
  | cons c a' ih =>
    have hc : isJsonWs c = true := h c (by simp)
    simp only [List.cons_append, skipWs, List.dropWhile_cons, hc, if_pos]
    exact ih fun d hd => h d (by simp [hd])

theorem skipWs_cons_not {c : Char} (s : List Char) (h : isJsonWs c = false) :
    skipWs (c :: s) = c :: s := by
  simp [skipWs, List.dropWhile_cons, h]

theorem wsStr_indent {ind : String} (h : wsStr ind) : wsStr (ind ++ "  ") := by
  intro c hc
  simp only [String.data_append] at hc
  rcases List.mem_append.mp hc with h1 | h1
  · exact h c h1
  · have hc' : c = ' ' := by
      simpa using h1
    subst hc'
    decide

/-- The run of characters after the parsed text does not begin with a digit,
so a greedy number parse cannot overrun into it. -/
def headNotDigit : List Char → Prop
  | [] => True
  | c :: _ => isDigit c = false

theorem parseDigits_stop {l : List Char} (acc : Nat) (h : headNotDigit l) :
    parseDigits l acc = (acc, l) := by
  cases l with
  | nil => rfl
  | cons c r =>
    have hc : isDigit c = false := h
    simp [parseDigits, hc]

/-- All characters of the list are decimal digits. -/
@[reducible] def allDigits (l : List Char) : Prop := ∀ c ∈ l, isDigit c = true

/-- The value a digit run denotes, extending an accumulator, mirroring the
recurrence of parseDigits. -/
def digitsVal : List Char → Nat → Nat
  | [], acc => acc
  | c :: rest, acc => digitsVal rest (acc * 10 + (c.toNat - 48))

theorem parseDigits_run {ds : List Char} (acc : Nat) (rest : List Char)
    (hd : allDigits ds) (hr : headNotDigit rest) :
    parseDigits (ds ++ rest) acc = (digitsVal ds acc, rest) := by
  induction ds generalizing acc with
  | nil => exact parseDigits_stop acc hr
  | cons c ds' ih =>
    have hc : isDigit c = true := hd c (by simp)
    simp only [List.cons_append, parseDigits, hc, if_pos, digitsVal]
    exact ih _ fun d hdm => hd d (by simp [hdm])

theorem digitsVal_append (a b : List Char) (acc : Nat) :
    digitsVal (a ++ b) acc = digitsVal b (digitsVal a acc) := by
  induction a generalizing acc with
  | nil => rfl
  | cons c a' ih =>
    simp only [List.cons_append, digitsVal]
    exact ih _

theorem natDigitsGo_allDigits : ∀ fuel n, n ≤ fuel → allDigits (natDigitsGo fuel n) := by
  intro fuel
  induction fuel with
  | zero =>
    intro n hn
    interval_cases n
    intro c hc
    simp only [natDigitsGo, List.mem_singleton] at hc
    subst hc
    exact isDigit_digitChar (by omega)
  | succ f ih =>
    intro n hn c hc
    by_cases h10 : n < 10
    · simp only [natDigitsGo, if_pos h10, List.mem_singleton] at hc
      subst hc
      exact isDigit_digitChar h10
    · simp only [natDigitsGo, if_neg h10, List.mem_append, List.mem_singleton] at hc
      rcases hc with hc | hc
      · exact ih (n / 10) (by omega) c hc
      · subst hc
        exact isDigit_digitChar (by omega)

theorem natDigitsGo_head : ∀ fuel n, n ≤ fuel →
    ∃ m t, m < 10 ∧ natDigitsGo fuel n = digitChar m :: t := by
  intro fuel
  induction fuel with
  | zero =>
    intro n hn
    interval_cases n
    exact ⟨0, [], by omega, rfl⟩
  | succ f ih =>
    intro n hn
    by_cases h10 : n < 10
    · exact ⟨n, [], h10, by simp [natDigitsGo, h10]⟩
    · obtain ⟨m, t, hm, ht⟩ := ih (n / 10) (by omega)
      exact ⟨m, t ++ [digitChar (n % 10)], hm, by simp [natDigitsGo, h10, ht]⟩

theorem digitsVal_natDigitsGo : ∀ fuel n acc, n ≤ fuel →
    digitsVal (natDigitsGo fuel n) acc = acc * 10 ^ (natDigitsGo fuel n).length + n := by
  intro fuel
  induction fuel with
  | zero =>
    intro n acc hn
    interval_cases n
    simp [natDigitsGo, digitsVal, digitChar_toNat (by omega : (0 : Nat) < 10)]
  | succ f ih =>
    intro n acc hn
    by_cases h10 : n < 10
    · simp only [natDigitsGo, if_pos h10, digitsVal]
      rw [digitChar_toNat h10]
      simp only [List.length_singleton, pow_one]
      omega
    · have hrec := ih (n / 10) acc (by omega)
      simp only [natDigitsGo, if_neg h10, digitsVal_append, hrec, digitsVal,
        List.length_append, List.length_singleton]
      rw [digitChar_toNat (by omega : n % 10 < 10)]
      have e2 : 48 + n % 10 - 48 = n % 10 := by omega
      rw [e2, pow_succ, ← mul_assoc]
      generalize acc * 10 ^ (natDigitsGo f (n / 10)).length = A
      omega

/-- The escaped text of a character list with an explicit continuation. -/
def escFold (l : List Char) (t : List Char) : List Char :=
  l.foldr (fun c acc => jsonEscapeChar c ++ acc) t

theorem jsonQuote_data (s : String) :
    (jsonQuote s).data = '"' :: escFold s.data ['"'] := rfl

theorem escFold_append (l t u : List Char) : escFold l t ++ u = escFold l (t ++ u) := by
  induction l with
  | nil => rfl
  | cons c l' ih =>
    show (jsonEscapeChar c ++ escFold l' t) ++ u = jsonEscapeChar c ++ escFold l' (t ++ u)
    rw [List.append_assoc, ih]

theorem hexVal_hexDigitChar {m : Nat} (h : m < 16) : hexVal (hexDigitChar m) = some m := by
  unfold hexDigitChar
  by_cases h10 : m < 10
  · rw [if_pos h10]
    have ht := toNat_ofNat_valid (n := 48 + m) (Or.inl (by omega))
    unfold hexVal
    rw [ht, if_pos (by omega : 48 ≤ 48 + m ∧ 48 + m ≤ 57)]
    congr 1
    omega
  · rw [if_neg h10]
    have ht := toNat_ofNat_valid (n := 87 + m) (Or.inl (by omega))
    unfold hexVal
    rw [ht, if_neg (by omega : ¬ (48 ≤ 87 + m ∧ 87 + m ≤ 57)),
      if_pos (by omega : 97 ≤ 87 + m ∧ 87 + m ≤ 102)]
    congr 1
    omega

theorem strBody_rt : ∀ (l rest : List Char),
    parseStrBody (escFold l ('"' :: rest)) = some (l, rest) := by
  intro l
  induction l with
  | nil =>
    intro rest
    show parseStrBody ('"' :: rest) = some ([], rest)
    rw [parseStrBody.eq_def]
    simp
  | cons c l' ih =>
    intro rest
    show parseStrBody (jsonEscapeChar c ++ escFold l' ('"' :: rest)) = some (c :: l', rest)
    unfold jsonEscapeChar
    by_cases h1 : c = '"'
    · subst h1
      rw [if_pos rfl]
      simp only [List.cons_append, List.nil_append]
      rw [parseStrBody.eq_def]
      simp [ih]
    · rw [if_neg h1]
      by_cases h2 : c = '\\'
      · subst h2
        rw [if_pos rfl]
        simp only [List.cons_append, List.nil_append]
        rw [parseStrBody.eq_def]
        simp [ih]
      · rw [if_neg h2]
        by_cases h3 : c = '\x08'
        · subst h3
          rw [if_pos rfl]
          simp only [List.cons_append, List.nil_append]
          rw [parseStrBody.eq_def]
          simp [ih]
        · rw [if_neg h3]
          by_cases h4 : c = '\x09'
          · subst h4
            rw [if_pos rfl]
            simp only [List.cons_append, List.nil_append]
            rw [parseStrBody.eq_def]
            simp [ih]
          · rw [if_neg h4]
            by_cases h5 : c = '\x0a'
            · subst h5
              rw [if_pos rfl]
              simp only [List.cons_append, List.nil_append]
              rw [parseStrBody.eq_def]
              simp [ih]
            · rw [if_neg h5]
              by_cases h6 : c = '\x0c'
              · subst h6
                rw [if_pos rfl]
                simp only [List.cons_append, List.nil_append]
                rw [parseStrBody.eq_def]
                simp [ih]
              · rw [if_neg h6]
                by_cases h7 : c = '\x0d'
                · subst h7
                  rw [if_pos rfl]
                  simp only [List.cons_append, List.nil_append]
                  rw [parseStrBody.eq_def]
                  simp [ih]
                · rw [if_neg h7]
                  by_cases hlt : c.toNat < 0x20
                  · rw [if_pos hlt]
                    have hhi := hexVal_hexDigitChar (m := c.toNat / 16) (by omega)
                    have hlo := hexVal_hexDigitChar (m := c.toNat % 16) (by omega)
                    have h00 : hexVal '0' = some 0 := by decide
                    simp only [List.cons_append, List.nil_append]
                    rw [parseStrBody.eq_def]
                    simp only [show ¬ (('\\' : Char) = '"') by decide, if_false, if_pos rfl,
                      show ¬ (('u' : Char) = '"') by decide,
                      show ¬ (('u' : Char) = '\\') by decide,
                      show ¬ (('u' : Char) = '/') by decide,
                      show ¬ (('u' : Char) = 'b') by decide,
                      show ¬ (('u' : Char) = 'f') by decide,
                      show ¬ (('u' : Char) = 'n') by decide,
                      show ¬ (('u' : Char) = 'r') by decide,
                      show ¬ (('u' : Char) = 't') by decide]
                    rw [h00, hhi, hlo]
                    have hcode : ((0 * 16 + 0) * 16 + c.toNat / 16) * 16 + c.toNat % 16
                        = c.toNat := by omega
                    simp only [hcode]
                    rw [if_pos (Or.inl (by omega : c.toNat < 0xd800)), ih]
                    simp [Char.ofNat_toNat]
                  · rw [if_neg hlt]
                    simp only [List.cons_append, List.nil_append]
                    rw [parseStrBody.eq_def]
                    simp only [if_neg h1, if_neg h2, if_neg hlt, ih]
                    rfl

/-- A string is its own character list repackaged. -/
theorem string_eta (s : String) : (⟨s.data⟩ : String) = s := by
  cases s
  rfl

/-- What follows the first item of a printed nonempty array: for each later
item a comma, newline, item indentation and the item, and after the last a
newline, the closing indentation and the closing bracket. -/
def printedItems (ind2 ind : String) : List JsValue → List Char → List Char
  | [], rest => '\n' :: (ind.data ++ (']' :: rest))
  | x :: xs, rest =>
      ',' :: '\n' :: (ind2.data ++ ((jppV ind2 x).data ++ printedItems ind2 ind xs rest))

/-- What follows the first member of a printed nonempty object, analogous to
printedItems with quoted keys and colon separators. -/
def printedFields (ind2 ind : String) : List (String × JsValue) → List Char → List Char
  | [], rest => '\n' :: (ind.data ++ ('\x7d' :: rest))
  | (k, v) :: fs, rest =>
      ',' :: '\n' :: (ind2.data ++ ((jsonQuote k).data ++ (':' :: ' ' ::
        ((jppV ind2 v).data ++ printedFields ind2 ind fs rest))))

theorem items_tail (ind2 ind : String) : ∀ (xs : List JsValue) (y : JsValue) (rest : List Char),
    (jppItems ind2 (y :: xs)).data ++ ('\n' :: (ind.data ++ (']' :: rest))) =
      ind2.data ++ ((jppV ind2 y).data ++ printedItems ind2 ind xs rest) := by
  intro xs
  induction xs with
  | nil =>
    intro y rest
    show (ind2 ++ jppV ind2 y).data ++ _ = _
    simp [printedItems]
  | cons x xs' ih =>
    intro y rest
    show (ind2 ++ jppV ind2 y ++ ",\n" ++ jppItems ind2 (x :: xs')).data ++ _ = _
    have e2 : (",\n" : String).data = [',', '\n'] := rfl
    simp only [String.data_append, e2, List.append_assoc, List.cons_append, List.nil_append]
    rw [ih x rest]
    simp [printedItems]

theorem fields_tail (ind2 ind : String) :
    ∀ (fs : List (String × JsValue)) (k : String) (v : JsValue) (rest : List Char),
    (jppFields ind2 ((k, v) :: fs)).data ++ ('\n' :: (ind.data ++ ('\x7d' :: rest))) =
      ind2.data ++ ((jsonQuote k).data ++ (':' :: ' ' ::
        ((jppV ind2 v).data ++ printedFields ind2 ind fs rest))) := by
  intro fs
  induction fs with
  | nil =>
    intro k v rest
    show (ind2 ++ jsonQuote k ++ ": " ++ jppV ind2 v).data ++ _ = _
    have e2 : (": " : String).data = [':', ' '] := rfl
    simp [printedFields, e2]
  | cons f fs' ih =>
    intro k v rest
    obtain ⟨k2, v2⟩ := f
    show (ind2 ++ jsonQuote k ++ ": " ++ jppV ind2 v ++ ",\n" ++
      jppFields ind2 ((k2, v2) :: fs')).data ++ _ = _
    have e2 : (": " : String).data = [':', ' '] := rfl
    have e3 : (",\n" : String).data = [',', '\n'] := rfl
    simp only [String.data_append, e2, e3, List.append_assoc, List.cons_append,
      List.nil_append]
    rw [ih k2 v2 rest]
    simp [printedFields]

theorem bridge_arr (ind : String) (x : JsValue) (xs : List JsValue) (rest : List Char) :
    (jppV ind (JsValue.arr (x :: xs))).data ++ rest =
      '[' :: '\n' :: ((ind ++ "  ").data ++ ((jppV (ind ++ "  ") x).data ++
        printedItems (ind ++ "  ") ind xs rest)) := by
  have e : jppV ind (JsValue.arr (x :: xs)) =
      "[\n" ++ jppItems (ind ++ "  ") (x :: xs) ++ "\n" ++ ind ++ "]" := by
    rw [jppV.eq_def]
  rw [e]
  have e1 : ("[\n" : String).data = ['[', '\n'] := rfl
  have e2 : ("\n" : String).data = ['\n'] := rfl
  have e3 : ("]" : String).data = [']'] := rfl
  simp only [String.data_append, e1, e2, e3, List.append_assoc, List.cons_append,
    List.nil_append]
  rw [items_tail (ind ++ "  ") ind xs x rest]
  simp [String.data_append]

theorem bridge_obj (ind : String) (k : String) (v : JsValue) (fs : List (String × JsValue))
    (rest : List Char) :
    (jppV ind (JsValue.obj ((k, v) :: fs))).data ++ rest =
      '\x7b' :: '\n' :: ((ind ++ "  ").data ++ ((jsonQuote k).data ++ (':' :: ' ' ::
        ((jppV (ind ++ "  ") v).data ++ printedFields (ind ++ "  ") ind fs rest)))) := by
  have e : jppV ind (JsValue.obj ((k, v) :: fs)) =
      "\x7b\n" ++ jppFields (ind ++ "  ") ((k, v) :: fs) ++ "\n" ++ ind ++ "\x7d" := by
    rw [jppV.eq_def]
  rw [e]
  have e1 : ("\x7b\n" : String).data = ['\x7b', '\n'] := rfl
  have e2 : ("\n" : String).data = ['\n'] := rfl
  have e3 : ("\x7d" : String).data = ['\x7d'] := rfl
  simp only [String.data_append, e1, e2, e3, List.append_assoc, List.cons_append,
    List.nil_append]
  rw [fields_tail (ind ++ "  ") ind fs k v rest]
  simp [String.data_append]

mutual

/-- The fuel parseVal needs to reconstruct a value from its printed text. -/
def fuelNeed : JsValue → Nat
  | JsValue.str _ => 1
  | JsValue.num _ => 1
  | JsValue.boolean _ => 1
  | JsValue.null => 1
  | JsValue.arr [] => 1
  | JsValue.arr (x :: xs) => 1 + itemsNeed (x :: xs)
  | JsValue.obj [] => 1
  | JsValue.obj (f :: fs) => 1 + fieldsNeed (f :: fs)

/-- The fuel parseItems needs for a printed item list. -/
def itemsNeed : List JsValue → Nat
  | [] => 0
  | x :: xs => 1 + fuelNeed x + itemsNeed xs

/-- The fuel parseFields needs for a printed member list. -/
def fieldsNeed : List (String × JsValue) → Nat
  | [] => 0
  | (_, v) :: fs => 1 + fuelNeed v + fieldsNeed fs

end

theorem fuelNeed_pos (v : JsValue) : 1 ≤ fuelNeed v := by
  cases v with
  | str s => simp [fuelNeed]
  | num n => simp [fuelNeed]
  | boolean b => simp [fuelNeed]
  | null => simp [fuelNeed]
  | arr xs =>
    cases xs with
    | nil => simp [fuelNeed]
    | cons x xs => simp [fuelNeed]
  | obj fs =>
    cases fs with
    | nil => simp [fuelNeed]
    | cons f fs =>
      obtain ⟨k, v⟩ := f
      simp [fuelNeed]

theorem digitChar_neq {m : Nat} (h : m < 10) :
    ¬ digitChar m = 'n' ∧ ¬ digitChar m = 't' ∧ ¬ digitChar m = 'f' ∧
    ¬ digitChar m = '"' ∧ ¬ digitChar m = '[' ∧ ¬ digitChar m = '\x7b' ∧
    ¬ digitChar m = '-' ∧ ¬ digitChar m = ']' ∧ ¬ digitChar m = '\x7d' := by
  have htn := digitChar_toNat h
  refine ⟨charNe ?_, charNe ?_, charNe ?_, charNe ?_, charNe ?_, charNe ?_, charNe ?_,
    charNe ?_, charNe ?_⟩
  all_goals rw [htn]
  · rw [show ('n' : Char).toNat = 110 from rfl]
    omega
  · rw [show ('t' : Char).toNat = 116 from rfl]
    omega
  · rw [show ('f' : Char).toNat = 102 from rfl]
    omega
  · rw [show ('"' : Char).toNat = 34 from rfl]
    omega
  · rw [show ('[' : Char).toNat = 91 from rfl]
    omega
  · rw [show ('\x7b' : Char).toNat = 123 from rfl]
    omega
  · rw [show ('-' : Char).toNat = 45 from rfl]
    omega
  · rw [show (']' : Char).toNat = 93 from rfl]
    omega
  · rw [show ('\x7d' : Char).toNat = 125 from rfl]
    omega

theorem jpp_head (ind : String) (v : JsValue) :
    ∃ d r, (jppV ind v).data = d :: r ∧ isJsonWs d = false ∧ ¬ d = ']' ∧ ¬ d = '\x7d' := by
  cases v with
  | str s =>
    refine ⟨'"', escFold s.data ['"'], ?_, by decide, by decide, by decide⟩
    have e : jppV ind (JsValue.str s) = jsonQuote s := by rw [jppV.eq_def]
    rw [e, jsonQuote_data]
  | num n =>
    by_cases hn : n < 0
    · refine ⟨'-', natDigitsGo n.natAbs n.natAbs, ?_, by decide, by decide, by decide⟩
      have e : jppV ind (JsValue.num n) = "-" ++ natToString n.natAbs := by
        rw [jppV.eq_def]
        simp [jsNumToString, hn]
      rw [e]
      rfl
    · obtain ⟨m, t, hm, ht⟩ := natDigitsGo_head n.natAbs n.natAbs le_rfl
      obtain ⟨_, _, _, _, _, _, _, h8, h9⟩ := digitChar_neq hm
      refine ⟨digitChar m, t, ?_,
        not_isJsonWs_of_digit (isDigit_digitChar hm), h8, h9⟩
      have e : jppV ind (JsValue.num n) = natToString n.natAbs := by
        rw [jppV.eq_def]
        simp [jsNumToString, hn]
      rw [e]
      show natDigits n.natAbs = _
      rw [show natDigits n.natAbs = natDigitsGo n.natAbs n.natAbs from rfl, ht]
  | boolean b =>
    cases b with
    | true =>
      refine ⟨'t', ['r', 'u', 'e'], ?_, by decide, by decide, by decide⟩
      rw [show jppV ind (JsValue.boolean true) = "true" from by simp [jppV.eq_def]]
    | false =>
      refine ⟨'f', ['a', 'l', 's', 'e'], ?_, by decide, by decide, by decide⟩
      rw [show jppV ind (JsValue.boolean false) = "false" from by simp [jppV.eq_def]]
  | null =>
    refine ⟨'n', ['u', 'l', 'l'], ?_, by decide, by decide, by decide⟩
    rw [show jppV ind JsValue.null = "null" from by simp [jppV.eq_def]]
  | arr xs =>
    cases xs with
    | nil =>
      refine ⟨'[', [']'], ?_, by decide, by decide, by decide⟩
      rw [show jppV ind (JsValue.arr []) = "[]" from by simp [jppV.eq_def]]
    | cons x xs' =>
      refine ⟨'[', '\n' :: ((ind ++ "  ").data ++ ((jppV (ind ++ "  ") x).data ++
        printedItems (ind ++ "  ") ind xs' [])), ?_, by decide, by decide, by decide⟩
      have hb := bridge_arr ind x xs' []
      rw [List.append_nil] at hb
      rw [hb]
  | obj fs =>
    cases fs with
    | nil =>
      refine ⟨'\x7b', ['\x7d'], ?_, by decide, by decide, by decide⟩
      rw [show jppV ind (JsValue.obj []) = "\x7b\x7d" from by simp [jppV.eq_def]]
    | cons f fs' =>
      obtain ⟨k, v⟩ := f
      refine ⟨'\x7b', '\n' :: ((ind ++ "  ").data ++ ((jsonQuote k).data ++ (':' :: ' ' ::
        ((jppV (ind ++ "  ") v).data ++ printedFields (ind ++ "  ") ind fs' [])))),
        ?_, by decide, by decide, by decide⟩
      have hb := bridge_obj ind k v fs' []
      rw [List.append_nil] at hb
      rw [hb]

theorem parse_jpp : ∀ fuel : Nat,
    (∀ (pre : List Char) (v : JsValue) (ind : String) (rest : List Char),
        wsList pre → wsStr ind → headNotDigit rest → fuelNeed v ≤ fuel →
        parseVal fuel (pre ++ ((jppV ind v).data ++ rest)) = some (v, rest)) ∧
    (∀ (pre : List Char) (x : JsValue) (xs : List JsValue) (ind2 ind : String)
        (rest : List Char),
        wsList pre → wsStr ind2 → wsStr ind → itemsNeed (x :: xs) ≤ fuel →
        parseItems fuel (pre ++ ((jppV ind2 x).data ++ printedItems ind2 ind xs rest)) =
          some (x :: xs, rest)) ∧
    (∀ (pre : List Char) (k : String) (v : JsValue) (fs : List (String × JsValue))
        (ind2 ind : String) (rest : List Char),
        wsList pre → wsStr ind2 → wsStr ind → fieldsNeed ((k, v) :: fs) ≤ fuel →
        parseFields fuel (pre ++ ((jsonQuote k).data ++ (':' :: ' ' ::
          ((jppV ind2 v).data ++ printedFields ind2 ind fs rest)))) =
          some ((k, v) :: fs, rest)) := by
  intro fuel
  induction fuel with
  | zero =>
    refine ⟨?_, ?_, ?_⟩
    · intro pre v ind rest _ _ _ hfuel
      exact absurd hfuel (by have := fuelNeed_pos v; omega)
    · intro pre x xs ind2 ind rest _ _ _ hfuel
      exact absurd hfuel (by simp [itemsNeed])
    · intro pre k v fs ind2 ind rest _ _ _ hfuel
      exact absurd hfuel (by simp [fieldsNeed])
  | succ fuel ih =>
    obtain ⟨ihP, ihQ, ihR⟩ := ih
    refine ⟨?_, ?_, ?_⟩
    · -- parseVal
      intro pre v ind rest hpre hind hrest hfuel
      cases v with
      | null =>
        have e : (jppV ind JsValue.null).data = 'n' :: 'u' :: 'l' :: 'l' :: [] := by
          rw [show jppV ind JsValue.null = "null" from by simp [jppV.eq_def]]
        rw [e]
        have hs : skipWs (pre ++ ('n' :: 'u' :: 'l' :: 'l' :: [] ++ rest)) =
            'n' :: 'u' :: 'l' :: 'l' :: rest := by
          rw [skipWs_append_ws _ hpre]
          simp [skipWs_cons_not _ (by decide : isJsonWs 'n' = false)]
        rw [parseVal.eq_def]
        dsimp only
        rw [hs]
        simp
      | boolean b =>
        cases b with
        | true =>
          have e : (jppV ind (JsValue.boolean true)).data = 't' :: 'r' :: 'u' :: 'e' :: [] := by
            rw [show jppV ind (JsValue.boolean true) = "true" from by simp [jppV.eq_def]]
          rw [e]
          have hs : skipWs (pre ++ ('t' :: 'r' :: 'u' :: 'e' :: [] ++ rest)) =
              't' :: 'r' :: 'u' :: 'e' :: rest := by
            rw [skipWs_append_ws _ hpre]
            simp [skipWs_cons_not _ (by decide : isJsonWs 't' = false)]
          rw [parseVal.eq_def]
          dsimp only
          rw [hs]
          simp
        | false =>
          have e : (jppV ind (JsValue.boolean false)).data =
              'f' :: 'a' :: 'l' :: 's' :: 'e' :: [] := by
            rw [show jppV ind (JsValue.boolean false) = "false" from by simp [jppV.eq_def]]
          rw [e]
          have hs : skipWs (pre ++ ('f' :: 'a' :: 'l' :: 's' :: 'e' :: [] ++ rest)) =
              'f' :: 'a' :: 'l' :: 's' :: 'e' :: rest := by
            rw [skipWs_append_ws _ hpre]
            simp [skipWs_cons_not _ (by decide : isJsonWs 'f' = false)]
          rw [parseVal.eq_def]
          dsimp only
          rw [hs]
          simp
      | str s =>
        have e : (jppV ind (JsValue.str s)).data = '"' :: escFold s.data ['"'] := by
          rw [show jppV ind (JsValue.str s) = jsonQuote s from by simp [jppV.eq_def]]
          rw [jsonQuote_data]
        rw [e]
        have he : ('"' :: escFold s.data ['"']) ++ rest =
            '"' :: escFold s.data ('"' :: rest) := by
          rw [List.cons_append, escFold_append]
          rfl
        rw [he]
        have hs : skipWs (pre ++ '"' :: escFold s.data ('"' :: rest)) =
            '"' :: escFold s.data ('"' :: rest) := by
          rw [skipWs_append_ws _ hpre]
          exact skipWs_cons_not _ (by decide)
        rw [parseVal.eq_def]
        dsimp only
        rw [hs]
        simp only [show ¬ (('"' : Char) = 'n') by decide, if_false,
          show ¬ (('"' : Char) = 't') by decide,
          show ¬ (('"' : Char) = 'f') by decide, if_pos rfl]
        rw [strBody_rt]
        simp [string_eta]
      | num n =>
        by_cases hn : n < 0
        · have e : (jppV ind (JsValue.num n)).data =
              '-' :: natDigitsGo n.natAbs n.natAbs := by
            rw [show jppV ind (JsValue.num n) = "-" ++ natToString n.natAbs from by
              rw [jppV.eq_def]; simp [jsNumToString, hn]]
            rfl
          obtain ⟨m, t, hm, ht⟩ := natDigitsGo_head n.natAbs n.natAbs le_rfl
          rw [e, ht]
          have hs : skipWs (pre ++ (('-' :: digitChar m :: t) ++ rest)) =
              '-' :: digitChar m :: (t ++ rest) := by
            rw [skipWs_append_ws _ hpre]
            rw [show ('-' :: digitChar m :: t) ++ rest =
              '-' :: digitChar m :: (t ++ rest) from by simp]
            exact skipWs_cons_not _ (by decide)
          rw [parseVal.eq_def]
          dsimp only
          rw [hs]
          have hd : isDigit (digitChar m) = true := isDigit_digitChar hm
          have htn := digitChar_toNat hm
          have hall := natDigitsGo_allDigits n.natAbs n.natAbs le_rfl
          rw [ht] at hall
          have hallt : allDigits t := fun d hd2 => hall d (by simp [hd2])
          have hpd := @parseDigits_run t ((digitChar m).toNat - 48) rest hallt hrest
          have hdv : digitsVal t ((digitChar m).toNat - 48) = n.natAbs := by
            have h0 := digitsVal_natDigitsGo n.natAbs n.natAbs 0 le_rfl
            rw [ht] at h0
            simp only [digitsVal] at h0
            simpa using h0
          simp only [show ¬ (('-' : Char) = 'n') by decide, if_false,
            show ¬ (('-' : Char) = 't') by decide,
            show ¬ (('-' : Char) = 'f') by decide,
            show ¬ (('-' : Char) = '"') by decide,
            show ¬ (('-' : Char) = '[') by decide,
            show ¬ (('-' : Char) = '\x7b') by decide, if_pos rfl]
          simp only [hd, if_pos, hpd, hdv]
          have hval : (-(n.natAbs : Int)) = n := by omega
          rw [hval]
        · have e : (jppV ind (JsValue.num n)).data = natDigitsGo n.natAbs n.natAbs := by
            rw [show jppV ind (JsValue.num n) = natToString n.natAbs from by
              rw [jppV.eq_def]; simp [jsNumToString, hn]]
            rfl
          obtain ⟨m, t, hm, ht⟩ := natDigitsGo_head n.natAbs n.natAbs le_rfl
          rw [e, ht]
          have hd : isDigit (digitChar m) = true := isDigit_digitChar hm
          have hs : skipWs (pre ++ (digitChar m :: t ++ rest)) =
              digitChar m :: (t ++ rest) := by
            rw [skipWs_append_ws _ hpre]
            simp [skipWs_cons_not _ (not_isJsonWs_of_digit hd)]
          rw [parseVal.eq_def]
          dsimp only
          rw [hs]
          obtain ⟨hq1, hq2, hq3, hq4, hq5, hq6, hq7, _, _⟩ := digitChar_neq hm
          have htn := digitChar_toNat hm
          have hall := natDigitsGo_allDigits n.natAbs n.natAbs le_rfl
          rw [ht] at hall
          have hallt : allDigits t := fun d hd2 => hall d (by simp [hd2])
          have hpd := @parseDigits_run t ((digitChar m).toNat - 48) rest hallt hrest
          have hdv : digitsVal t ((digitChar m).toNat - 48) = n.natAbs := by
            have h0 := digitsVal_natDigitsGo n.natAbs n.natAbs 0 le_rfl
            rw [ht] at h0
            simp only [digitsVal] at h0
            simpa using h0
          simp only [hq1, if_false, hq2, hq3, hq4, hq5, hq6, hq7, hd, if_pos, hpd, hdv]
          have hval : ((n.natAbs : Nat) : Int) = n := by omega
          rw [hval]
      | arr xs =>
        cases xs with
        | nil =>
          have e : (jppV ind (JsValue.arr [])).data = '[' :: ']' :: [] := by
            rw [show jppV ind (JsValue.arr []) = "[]" from by simp [jppV.eq_def]]
          rw [e]
          have hs : skipWs (pre ++ ('[' :: ']' :: [] ++ rest)) = '[' :: ']' :: rest := by
            rw [skipWs_append_ws _ hpre]
            simp [skipWs_cons_not _ (by decide : isJsonWs '[' = false)]
          rw [parseVal.eq_def]
          dsimp only
          rw [hs]
          simp [skipWs_cons_not _ (by decide : isJsonWs ']' = false)]
        | cons x xs' =>
          rw [bridge_arr ind x xs' rest]
          have hs : skipWs (pre ++ ('[' :: '\n' :: ((ind ++ "  ").data ++
              ((jppV (ind ++ "  ") x).data ++ printedItems (ind ++ "  ") ind xs' rest)))) =
              '[' :: '\n' :: ((ind ++ "  ").data ++
              ((jppV (ind ++ "  ") x).data ++ printedItems (ind ++ "  ") ind xs' rest)) := by
            rw [skipWs_append_ws _ hpre]
            exact skipWs_cons_not _ (by decide)
          rw [parseVal.eq_def]
          dsimp only
          rw [hs]
          simp only [show ¬ (('[' : Char) = 'n') by decide, if_false,
            show ¬ (('[' : Char) = 't') by decide,
            show ¬ (('[' : Char) = 'f') by decide,
            show ¬ (('[' : Char) = '"') by decide, if_pos rfl]
          obtain ⟨d, r, hdr, hdw, hdne, _⟩ := jpp_head (ind ++ "  ") x
          have hin : skipWs ('\n' :: ((ind ++ "  ").data ++
              ((jppV (ind ++ "  ") x).data ++ printedItems (ind ++ "  ") ind xs' rest))) =
              d :: (r ++ printedItems (ind ++ "  ") ind xs' rest) := by
            rw [show ('\n' :: ((ind ++ "  ").data ++ ((jppV (ind ++ "  ") x).data ++
                printedItems (ind ++ "  ") ind xs' rest))) =
              ('\n' :: (ind ++ "  ").data) ++ ((jppV (ind ++ "  ") x).data ++
                printedItems (ind ++ "  ") ind xs' rest) from by simp]
            rw [skipWs_append_ws _ ?_]
            · rw [hdr, List.cons_append]
              exact skipWs_cons_not _ hdw
            · intro c hc
              rcases List.mem_cons.mp hc with h1 | h1
              · subst h1
                decide
              · exact wsStr_indent hind c h1
          rw [hin]
          simp only [hdne, if_false]
          have hback : d :: (r ++ printedItems (ind ++ "  ") ind xs' rest) =
              (jppV (ind ++ "  ") x).data ++ printedItems (ind ++ "  ") ind xs' rest := by
            rw [hdr, List.cons_append]
          rw [hback]
          have hfx : itemsNeed (x :: xs') ≤ fuel := by
            simp only [fuelNeed] at hfuel
            omega
          have hq := ihQ [] x xs' (ind ++ "  ") ind rest (by intro c hc; simp at hc)
            (wsStr_indent hind) hind hfx
          rw [List.nil_append] at hq
          rw [hq]
          simp
      | obj fs =>
        cases fs with
        | nil =>
          have e : (jppV ind (JsValue.obj [])).data = '\x7b' :: '\x7d' :: [] := by
            rw [show jppV ind (JsValue.obj []) = "\x7b\x7d" from by simp [jppV.eq_def]]
          rw [e]
          have hs : skipWs (pre ++ ('\x7b' :: '\x7d' :: [] ++ rest)) =
              '\x7b' :: '\x7d' :: rest := by
            rw [skipWs_append_ws _ hpre]
            simp [skipWs_cons_not _ (by decide : isJsonWs '\x7b' = false)]
          rw [parseVal.eq_def]
          dsimp only
          rw [hs]
          simp [skipWs_cons_not _ (by decide : isJsonWs '\x7d' = false)]
        | cons f fs' =>
          obtain ⟨k, v⟩ := f
          rw [bridge_obj ind k v fs' rest]
          have hs : skipWs (pre ++ ('\x7b' :: '\n' :: ((ind ++ "  ").data ++
              ((jsonQuote k).data ++ (':' :: ' ' :: ((jppV (ind ++ "  ") v).data ++
                printedFields (ind ++ "  ") ind fs' rest)))))) =
              '\x7b' :: '\n' :: ((ind ++ "  ").data ++
              ((jsonQuote k).data ++ (':' :: ' ' :: ((jppV (ind ++ "  ") v).data ++
                printedFields (ind ++ "  ") ind fs' rest)))) := by
            rw [skipWs_append_ws _ hpre]
            exact skipWs_cons_not _ (by decide)
          rw [parseVal.eq_def]
          dsimp only
          rw [hs]
          simp only [show ¬ (('\x7b' : Char) = 'n') by decide, if_false,
            show ¬ (('\x7b' : Char) = 't') by decide,
            show ¬ (('\x7b' : Char) = 'f') by decide,
            show ¬ (('\x7b' : Char) = '"') by decide,
            show ¬ (('\x7b' : Char) = '[') by decide, if_pos rfl]
          have hin : skipWs ('\n' :: ((ind ++ "  ").data ++
              ((jsonQuote k).data ++ (':' :: ' ' :: ((jppV (ind ++ "  ") v).data ++
                printedFields (ind ++ "  ") ind fs' rest))))) =
              '"' :: (escFold k.data ['"'] ++ (':' :: ' ' :: ((jppV (ind ++ "  ") v).data ++
                printedFields (ind ++ "  ") ind fs' rest))) := by
            rw [show ('\n' :: ((ind ++ "  ").data ++ ((jsonQuote k).data ++
                (':' :: ' ' :: ((jppV (ind ++ "  ") v).data ++
                  printedFields (ind ++ "  ") ind fs' rest))))) =
              ('\n' :: (ind ++ "  ").data) ++ ((jsonQuote k).data ++
                (':' :: ' ' :: ((jppV (ind ++ "  ") v).data ++
                  printedFields (ind ++ "  ") ind fs' rest))) from by simp]
            rw [skipWs_append_ws _ ?_]
            · rw [jsonQuote_data, List.cons_append]
              exact skipWs_cons_not _ (by decide)
            · intro c hc
              rcases List.mem_cons.mp hc with h1 | h1
              · subst h1
                decide
              · exact wsStr_indent hind c h1
          rw [hin]
          simp only [show ¬ (('"' : Char) = '\x7d') by decide, if_false]
          have hff : fieldsNeed ((k, v) :: fs') ≤ fuel := by
            simp only [fuelNeed] at hfuel
            omega
          have hr := ihR [] k v fs' (ind ++ "  ") ind rest (by intro c hc; simp at hc)
            (wsStr_indent hind) hind hff
          rw [List.nil_append, jsonQuote_data, List.cons_append] at hr
          rw [hr]
          simp
    · -- parseItems
      intro pre x xs ind2 ind rest hpre h2 hind hfuel
      have hnd : headNotDigit (printedItems ind2 ind xs rest) := by
        cases xs with
        | nil =>
          show isDigit '\n' = false
          decide
        | cons y ys =>
          show isDigit ',' = false
          decide
      have hfx : fuelNeed x ≤ fuel := by
        simp only [itemsNeed] at hfuel
        omega
      rw [parseItems.eq_def]
      dsimp only
      rw [ihP pre x ind2 (printedItems ind2 ind xs rest) hpre h2 hnd hfx]
      dsimp only
      cases xs with
      | nil =>
        have hs : skipWs (printedItems ind2 ind [] rest) = ']' :: rest := by
          show skipWs ('\n' :: (ind.data ++ (']' :: rest))) = ']' :: rest
          rw [show ('\n' :: (ind.data ++ (']' :: rest))) =
            ('\n' :: ind.data) ++ (']' :: rest) from by simp]
          rw [skipWs_append_ws _ ?_]
          · exact skipWs_cons_not _ (by decide)
          · intro c hc
            rcases List.mem_cons.mp hc with h1 | h1
            · subst h1
              decide
            · exact hind c h1
        rw [hs]
        simp
      | cons y ys =>
        have hs : skipWs (printedItems ind2 ind (y :: ys) rest) =
            ',' :: ('\n' :: (ind2.data ++ ((jppV ind2 y).data ++
              printedItems ind2 ind ys rest))) := by
          show skipWs (',' :: _) = _
          exact skipWs_cons_not _ (by decide)
        rw [hs]
        simp only [show (',' : Char) = ',' from rfl, if_pos rfl]
        have hys : itemsNeed (y :: ys) ≤ fuel := by
          simp only [itemsNeed] at hfuel ⊢
          omega
        have hq := ihQ ('\n' :: ind2.data) y ys ind2 ind rest ?_ h2 hind hys
        · rw [show ('\n' :: ind2.data) ++ ((jppV ind2 y).data ++
            printedItems ind2 ind ys rest) = '\n' :: (ind2.data ++ ((jppV ind2 y).data ++
            printedItems ind2 ind ys rest)) from by simp] at hq
          rw [hq]
          rfl
        · intro c hc
          rcases List.mem_cons.mp hc with h1 | h1
          · subst h1
            decide
          · exact h2 c h1
    · -- parseFields
      intro pre k v fs ind2 ind rest hpre h2 hind hfuel
      have hs : skipWs (pre ++ ((jsonQuote k).data ++ (':' :: ' ' ::
          ((jppV ind2 v).data ++ printedFields ind2 ind fs rest)))) =
          '"' :: (escFold k.data ['"'] ++ (':' :: ' ' ::
          ((jppV ind2 v).data ++ printedFields ind2 ind fs rest))) := by
        rw [skipWs_append_ws _ hpre, jsonQuote_data, List.cons_append]
        exact skipWs_cons_not _ (by decide)
      rw [parseFields.eq_def]
      dsimp only
      rw [hs]
      simp only [if_pos rfl]
      have he : escFold k.data ['"'] ++ (':' :: ' ' ::
          ((jppV ind2 v).data ++ printedFields ind2 ind fs rest)) =
          escFold k.data ('"' :: (':' :: ' ' ::
          ((jppV ind2 v).data ++ printedFields ind2 ind fs rest))) := by
        rw [escFold_append]
        rfl
      rw [he, strBody_rt]
      dsimp only
      have hs2 : skipWs (':' :: ' ' :: ((jppV ind2 v).data ++
          printedFields ind2 ind fs rest)) = ':' :: ' ' :: ((jppV ind2 v).data ++
          printedFields ind2 ind fs rest) := skipWs_cons_not _ (by decide)
      rw [hs2]
      simp only [if_pos rfl]
      have hfv : fuelNeed v ≤ fuel := by
        simp only [fieldsNeed] at hfuel
        omega
      have hnd : headNotDigit (printedFields ind2 ind fs rest) := by
        cases fs with
        | nil =>
          show isDigit '\n' = false
          decide
        | cons g gs =>
          obtain ⟨k2, v2⟩ := g
          show isDigit ',' = false
          decide
      have hp := ihP [' '] v ind2 (printedFields ind2 ind fs rest)
        (by intro c hc; simp at hc; subst hc; decide) h2 hnd hfv
      rw [show ([' '] ++ ((jppV ind2 v).data ++ printedFields ind2 ind fs rest)) =
        ' ' :: ((jppV ind2 v).data ++ printedFields ind2 ind fs rest) from rfl] at hp
      rw [hp]
      dsimp only
      cases fs with
      | nil =>
        have hs3 : skipWs (printedFields ind2 ind [] rest) = '\x7d' :: rest := by
          show skipWs ('\n' :: (ind.data ++ ('\x7d' :: rest))) = _
          rw [show ('\n' :: (ind.data ++ ('\x7d' :: rest))) =
            ('\n' :: ind.data) ++ ('\x7d' :: rest) from by simp]
          rw [skipWs_append_ws _ ?_]
          · exact skipWs_cons_not _ (by decide)
          · intro c hc
            rcases List.mem_cons.mp hc with h1 | h1
            · subst h1
              decide
            · exact hind c h1
        rw [hs3]
        simp [string_eta]
      | cons g gs =>
        obtain ⟨k2, v2⟩ := g
        have hs3 : skipWs (printedFields ind2 ind ((k2, v2) :: gs) rest) =
            ',' :: ('\n' :: (ind2.data ++ ((jsonQuote k2).data ++ (':' :: ' ' ::
              ((jppV ind2 v2).data ++ printedFields ind2 ind gs rest))))) := by
          show skipWs (',' :: _) = _
          exact skipWs_cons_not _ (by decide)
        rw [hs3]
        simp only [if_pos rfl]
        have hgs : fieldsNeed ((k2, v2) :: gs) ≤ fuel := by
          simp only [fieldsNeed] at hfuel ⊢
          omega
        have hr := ihR ('\n' :: ind2.data) k2 v2 gs ind2 ind rest ?_ h2 hind hgs
        · rw [show ('\n' :: ind2.data) ++ ((jsonQuote k2).data ++ (':' :: ' ' ::
            ((jppV ind2 v2).data ++ printedFields ind2 ind gs rest))) =
            '\n' :: (ind2.data ++ ((jsonQuote k2).data ++ (':' :: ' ' ::
            ((jppV ind2 v2).data ++ printedFields ind2 ind gs rest)))) from by simp] at hr
          rw [hr]
          simp [string_eta]
        · intro c hc
          rcases List.mem_cons.mp hc with h1 | h1
          · subst h1
            decide
          · exact h2 c h1


mutual

theorem fuelNeed_le_len : ∀ (ind : String) (v : JsValue),
    fuelNeed v ≤ (jppV ind v).data.length
  | ind, JsValue.str s => by
      obtain ⟨d, r, hdr, _, _, _⟩ := jpp_head ind (JsValue.str s)
      rw [hdr]
      simp [fuelNeed]
  | ind, JsValue.num n => by
      obtain ⟨d, r, hdr, _, _, _⟩ := jpp_head ind (JsValue.num n)
      rw [hdr]
      simp [fuelNeed]
  | ind, JsValue.boolean b => by
      obtain ⟨d, r, hdr, _, _, _⟩ := jpp_head ind (JsValue.boolean b)
      rw [hdr]
      simp [fuelNeed]
  | ind, JsValue.null => by
      obtain ⟨d, r, hdr, _, _, _⟩ := jpp_head ind JsValue.null
      rw [hdr]
      simp [fuelNeed]
  | ind, JsValue.arr [] => by
      obtain ⟨d, r, hdr, _, _, _⟩ := jpp_head ind (JsValue.arr [])
      rw [hdr]
      simp [fuelNeed]
  | ind, JsValue.arr (x :: xs) => by
      have hb := bridge_arr ind x xs []
      rw [List.append_nil] at hb
      have hA := fuelNeed_le_len (ind ++ "  ") x
      have hB := itemsNeed_le_len xs (ind ++ "  ") ind []
      rw [hb]
      simp only [fuelNeed, itemsNeed, List.length_cons, List.length_append]
      omega
  | ind, JsValue.obj [] => by
      obtain ⟨d, r, hdr, _, _, _⟩ := jpp_head ind (JsValue.obj [])
      rw [hdr]
      simp [fuelNeed]
  | ind, JsValue.obj ((k, v) :: fs) => by
      have hb := bridge_obj ind k v fs []
      rw [List.append_nil] at hb
      have hA := fuelNeed_le_len (ind ++ "  ") v
      have hB := fieldsNeed_le_len fs (ind ++ "  ") ind []
      rw [hb]
      simp only [fuelNeed, fieldsNeed, List.length_cons, List.length_append]
      omega

theorem itemsNeed_le_len : ∀ (xs : List JsValue) (ind2 ind : String) (rest : List Char),
    itemsNeed xs ≤ (printedItems ind2 ind xs rest).length
  | [], ind2, ind, rest => by simp [itemsNeed]
  | y :: ys, ind2, ind, rest => by
      have hA := fuelNeed_le_len ind2 y
      have hB := itemsNeed_le_len ys ind2 ind rest
      simp only [itemsNeed, printedItems, List.length_cons, List.length_append]
      omega

theorem fieldsNeed_le_len : ∀ (fs : List (String × JsValue)) (ind2 ind : String)
    (rest : List Char), fieldsNeed fs ≤ (printedFields ind2 ind fs rest).length
  | [], _, _, _ => by simp [fieldsNeed]
  | (k, v) :: fs, ind2, ind, rest => by
      have hA := fuelNeed_le_len ind2 v
      have hB := fieldsNeed_le_len fs ind2 ind rest
      simp only [fieldsNeed, printedFields, List.length_cons, List.length_append]
      omega

end

/-- Claim C7: structured round-trip. For every structured value v (one for
which the typeof-object test is true, so the render loop serializes it with
JSON.stringify(v, null, 2)), parsing the stringifyResult output back as JSON
reconstructs exactly v: all keys and values are preserved and the two-space
indentation is cosmetic only. -/
theorem c7_round_trip : ∀ v : JsValue, typeofObject v = true →
    jsonParse (stringifyResult v) = some v := by
  intro v htype
  have hsr : stringifyResult v = jppV "" v := by
    unfold stringifyResult resultTextVal
    rw [if_pos htype]
    rfl
  rw [hsr]
  unfold jsonParse
  have hfuel : fuelNeed v ≤ (jppV "" v).length + 1 := by
    have h1 := fuelNeed_le_len "" v
    have e : (jppV "" v).length = (jppV "" v).data.length := rfl
    omega
  have hP := (parse_jpp ((jppV "" v).length + 1)).1 [] v "" []
    (by intro c hc; simp at hc) (by intro c hc; simp at hc) trivial hfuel
  rw [List.nil_append, List.append_nil] at hP
  rw [hP]
  simp [skipWs]

/-- Witness for C7 at the end-to-end example value from the spec. -/
theorem c7_round_trip_witness :
    typeofObject (JsValue.obj [("destination", JsValue.str "Tampa")]) = true ∧
    jsonParse (stringifyResult (JsValue.obj [("destination", JsValue.str "Tampa")])) =
      some (JsValue.obj [("destination", JsValue.str "Tampa")]) :=
  ⟨rfl, c7_round_trip (JsValue.obj [("destination", JsValue.str "Tampa")]) rfl⟩

end VacationReport
